import Mathlib

/-!
Verification of the WA-Schedular schedule-execution core.

This file gives a shallow embedding, in Lean 4, of the scheduling and
execution core of the WA-Schedular repository:

* `backend/services/scheduler/executor.py` (`execute_scheduled_message`),
* `backend/services/whatsapp/message_sender.py` (`send_whatsapp_message`),
* `backend/services/scheduler/job_manager.py`
  (`add_schedule_job`, `reload_schedules`),
* `backend/routes/schedules.py`
  (`create_schedule`, `test_run_schedule`, `send_message_now`).

Timestamps (Python `datetime` values stored as ISO-8601 UTC strings, which
MongoDB compares lexicographically, i.e. chronologically) are modelled as
integers counting seconds.  The MongoDB collections are modelled as Lean
lists of records, and the atomic `find_one_and_update` claim primitive as a
pure function on those lists.  Concurrent invocations of the executor are
modelled by an interleaving state machine whose atomic steps are exactly the
store operations of the Python code (claim, send, log insert, update).
-/

namespace WASched

/-- Timestamps in seconds (models ISO-8601 UTC strings, whose lexicographic
order used by Mongo `$lt` coincides with chronological order). -/
abbrev Time := Int

/-- The hardcoded 5-minute execution lease of `executor.py`
(`timedelta(minutes=5)`). -/
def leaseSeconds : Time := 300

/-- A document of the `schedules` collection (model `ScheduledMessage`,
`backend/models/schedule.py`).  The `_executing` field is the execution-lock
timestamp written by the executor. -/
structure Schedule where
  id : String
  contact_id : String
  contact_name : String
  contact_phone : String
  message : String
  schedule_type : String
  scheduled_time : Option Time := none
  cron_expression : Option String := none
  cron_description : Option String := none
  is_active : Bool := true
  last_run : Option Time := none
  next_run : Option Time := none
  created_at : Time := 0
  _executing : Option Time := none
  completed_at : Option Time := none
  deriving Repr, DecidableEq

/-- A document of the `logs` collection (model `MessageLog`,
`backend/models/message_log.py`). -/
structure MessageLog where
  contact_id : String
  contact_name : String
  contact_phone : String
  message : String
  status : String
  error_message : Option String := none
  scheduled_message_id : Option String := none
  sent_at : Time
  deriving Repr, DecidableEq

/-- A document of the `contacts` collection (the fields the scheduling core
reads). -/
structure Contact where
  id : String
  name : String
  phone : String
  deriving Repr, DecidableEq

/-- The result dict returned by the WA service / `send_whatsapp_message`:
`{"success": bool, "error": str|absent}`. -/
structure GwResult where
  success : Bool
  error : Option String := none
  deriving Repr, DecidableEq

/-- The shared MongoDB database: the three collections the core touches. -/
structure Db where
  contacts : List Contact := []
  schedules : List Schedule := []
  logs : List MessageLog := []
  deriving Repr, DecidableEq

/-! ## Store primitives -/

/-- The filter document of the atomic claim in `execute_scheduled_message`
(executor.py lines 26–38): id matches, `is_active` is true, and `_executing`
is absent, `None`, or `$lt` (strictly older than) `now - 5 minutes`. -/
def claimFilter (sid : String) (now : Time) (s : Schedule) : Bool :=
  s.id == sid && s.is_active &&
    (match s._executing with
     | none => true
     | some t => decide (t < now - leaseSeconds))

/-- `find_one_and_update(filter, {"$set": {"_executing": now}})`: finds the
first document matching `claimFilter`, sets its `_executing` to `now`, and
returns the pre-update document (pymongo default `ReturnDocument.BEFORE`)
together with the updated collection.  Returns `none` and the unchanged
collection when nothing matches. -/
def findOneAndUpdateClaim (l : List Schedule) (sid : String) (now : Time) :
    Option Schedule × List Schedule :=
  match l with
  | [] => (none, [])
  | s :: rest =>
    if claimFilter sid now s then
      (some s, { s with _executing := some now } :: rest)
    else
      let r := findOneAndUpdateClaim rest sid now
      (r.1, s :: r.2)

/-- `update_one({"id": sid}, {"$set": fields})`: applies the field update `f`
to the first document whose id matches. -/
def updateOneById (l : List Schedule) (sid : String) (f : Schedule → Schedule) :
    List Schedule :=
  match l with
  | [] => []
  | s :: rest =>
    if s.id == sid then f s :: rest else s :: updateOneById rest sid f

/-! ## Message Gateway Client (`send_whatsapp_message`) -/

/-- What one `http_client.post(... /send ...)` attempt produces: either a
raised exception (network error etc.) or a parsed response dict. -/
inductive AttemptOutcome where
  | exc (msg : String)
  | resp (result : GwResult)
  deriving Repr

/-- The `permanent_failures` substring list of `message_sender.py`. -/
def permanentFailures : List String :=
  ["not registered", "invalid number", "not on whatsapp", "blocked"]

/-- ASCII lowercase of one character (models Python `str.lower` on the
ASCII error strings involved). -/
def lowerChar (c : Char) : Char :=
  if 65 ≤ c.toNat && c.toNat ≤ 90 then Char.ofNat (c.toNat + 32) else c

/-- Lowercased character list of a string. -/
def lowerStr (s : String) : List Char := s.data.map lowerChar

/-- Does the first list start with the second? -/
def strStartsWith : List Char → List Char → Bool
  | _, [] => true
  | [], _ :: _ => false
  | a :: as, b :: bs => a == b && strStartsWith as bs

/-- Substring containment on character lists (models Python `pat in s`). -/
def strHasSubstr : List Char → List Char → Bool
  | [], pat => pat.isEmpty
  | a :: t, pat => strStartsWith (a :: t) pat || strHasSubstr t pat

/-- `any(pf in last_error.lower() for pf in permanent_failures)`. -/
def isPermanentFailure (err : String) : Bool :=
  permanentFailures.any (fun pf => strHasSubstr (lowerStr err) pf.data)

/-- Observable trace of one `send_whatsapp_message` call: the returned result
dict, the number of `POST /send` attempts made, and the list of backoff
delays slept (in seconds, in order). -/
structure SendTrace where
  result : GwResult
  attempts : Nat
  delays : List Nat
  deriving Repr, DecidableEq

/-- Python `str(x)` for the `last_error` variable (`None` when never set). -/
def lastErrorStr : Option String → String
  | none => "None"
  | some e => e

/-- The retry loop of `send_whatsapp_message`, recursing on the number of
remaining loop iterations.  `attempt = maxRetries - remaining` is the 0-based
Python loop variable.  `delaysAcc` accumulates slept delays in reverse. -/
def sendGo (outcomes : Nat → AttemptOutcome) (maxRetries remaining : Nat)
    (lastError : Option String) (delaysAcc : List Nat) : SendTrace :=
  match remaining with
  | 0 =>
    { result :=
        { success := false
          error := some ("Failed after " ++ toString maxRetries ++
            " attempts: " ++ lastErrorStr lastError) }
      attempts := maxRetries
      delays := delaysAcc.reverse }
  | r + 1 =>
    let attempt := maxRetries - (r + 1)
    let next : Option String → SendTrace := fun le =>
      if attempt < maxRetries - 1 then
        sendGo outcomes maxRetries r le (2 ^ attempt :: delaysAcc)
      else
        sendGo outcomes maxRetries r le delaysAcc
    match outcomes attempt with
    | .resp res =>
      if res.success then
        { result := res, attempts := attempt + 1, delays := delaysAcc.reverse }
      else
        let le := res.error.getD "Unknown error"
        if isPermanentFailure le then
          { result := res, attempts := attempt + 1, delays := delaysAcc.reverse }
        else
          next (some le)
    | .exc msg => next (some msg)

/-- `send_whatsapp_message(phone, message, max_retries)`: the phone and
message only flow into the HTTP body, so the model is parameterised by the
outcome of each attempt (`outcomes n` = what the n-th `POST /send` does). -/
def send_whatsapp_message (outcomes : Nat → AttemptOutcome)
    (maxRetries : Nat) : SendTrace :=
  sendGo outcomes maxRetries maxRetries none []

/-! ## Executor (`execute_scheduled_message`) -/

/-- The MessageLog entry built at STEP 3 of `execute_scheduled_message` from
the claimed schedule document and the gateway result. -/
def mkLog (schedule : Schedule) (sid : String) (result : GwResult)
    (sentAt : Time) : MessageLog :=
  { contact_id := schedule.contact_id
    contact_name := schedule.contact_name
    contact_phone := schedule.contact_phone
    message := schedule.message
    status := if result.success then "sent" else "failed"
    error_message := result.error
    scheduled_message_id := some sid
    sent_at := sentAt }

/-- The `$set` document of STEP 4 (update schedule and release lock):
`last_run = now`, `_executing = None`, and for one-time schedules also
`is_active = false`, `completed_at = now`. -/
def releaseUpdate (schedType : String) (now : Time) (s : Schedule) : Schedule :=
  let s1 := { s with last_run := some now, _executing := none }
  if schedType == "once" then
    { s1 with is_active := false, completed_at := some now }
  else s1

/-- `execute_scheduled_message(schedule_id)` run to completion, with the
gateway result of STEP 2 given as a parameter: STEP 1 atomic claim (on
failure the function returns after read-only logging, leaving the store
unchanged), STEP 3 log insert, STEP 4 schedule update and lock release.
STEP 5 (Telegram notification) does not touch the store. -/
def execute_scheduled_message (db : Db) (sid : String) (now : Time)
    (result : GwResult) : Db :=
  match findOneAndUpdateClaim db.schedules sid now with
  | (none, _) => db
  | (some schedule, schedules1) =>
    let log := mkLog schedule sid result now
    let schedules2 :=
      updateOneById schedules1 sid (releaseUpdate schedule.schedule_type now)
    { db with schedules := schedules2, logs := db.logs ++ [log] }

/-- The executor composed with the gateway client: STEP 2 really calls
`send_whatsapp_message` (internal retries and all) and the executor only
sees its single returned result dict. -/
def executeWithGateway (db : Db) (sid : String) (now : Time)
    (outcomes : Nat → AttemptOutcome) : Db :=
  execute_scheduled_message db sid now (send_whatsapp_message outcomes 3).result

/-! ## Job manager (`add_schedule_job`, `reload_schedules`) -/

/-- An APScheduler trigger: `DateTrigger(run_date=t)` or
`CronTrigger.from_crontab(c)`. -/
inductive Trigger where
  | onceAt (t : Time)
  | recurringCron (c : String)
  deriving Repr, DecidableEq

/-- `add_schedule_job(schedule_id, schedule_type, scheduled_time,
cron_expression)`.  `raises` says whether the body of the taken branch
(`CronTrigger.from_crontab` on a malformed expression, or
`scheduler.add_job`) raises; the `try/except` then returns `False`.
Python truthiness: a `None` `scheduled_time` and a `None` or empty
`cron_expression` are falsy, so neither branch runs and `True` is returned
without registering anything.  Returns the registration made (if any) and
the boolean return value. -/
def add_schedule_job (raises : Bool) (schedule_id : String)
    (schedule_type : String) (scheduled_time : Option Time)
    (cron_expression : Option String) :
    Option (String × Trigger) × Bool :=
  if schedule_type == "once" then
    match scheduled_time with
    | some t =>
      if raises then (none, false) else (some (schedule_id, .onceAt t), true)
    | none => (none, true)
  else if schedule_type == "recurring" then
    match cron_expression with
    | some c =>
      if c == "" then (none, true)
      else if raises then (none, false)
      else (some (schedule_id, .recurringCron c), true)
    | none => (none, true)
  else (none, true)

/-- Observable outcome of `reload_schedules()`: the trigger registrations
made, the `loaded` counter, and the ids counted as `skipped` (each skip is
logged, i.e. flagged). -/
structure ReloadResult where
  regs : List (String × Trigger) := []
  loaded : Nat := 0
  skippedIds : List String := []
  deriving Repr, DecidableEq

/-- One iteration of the `for schedule in schedules` loop of
`reload_schedules`:

* `once` with a (truthy) `scheduled_time` strictly in the future: register
  and count as loaded; otherwise, when the time has elapsed, skip (debug
  log) and count as skipped;
* `recurring` with a truthy `cron_expression`: register and count as
  loaded;
* anything else: "Invalid schedule config" warning, count as skipped. -/
def reloadStep (raisesFor : String → Bool) (now : Time) (s : Schedule) :
    ReloadResult :=
  if s.schedule_type == "once" && s.scheduled_time.isSome then
    match s.scheduled_time with
    | some t =>
      if now < t then
        { regs := (add_schedule_job (raisesFor s.id) s.id "once"
            (some t) none).1.toList
          loaded := 1 }
      else
        { skippedIds := [s.id] }
    | none => { skippedIds := [s.id] }
  else if s.schedule_type == "recurring" &&
      !(s.cron_expression.getD "" == "") then
    { regs := (add_schedule_job (raisesFor s.id) s.id "recurring"
        none s.cron_expression).1.toList
      loaded := 1 }
  else
    { skippedIds := [s.id] }

/-- The `for schedule in schedules` loop of `reload_schedules`, folding
`reloadStep` over the queried documents in order. -/
def reloadGo (raisesFor : String → Bool) (now : Time) :
    List Schedule → ReloadResult
  | [] => {}
  | s :: rest =>
    let r1 := reloadStep raisesFor now s
    let r2 := reloadGo raisesFor now rest
    { regs := r1.regs ++ r2.regs
      loaded := r1.loaded + r2.loaded
      skippedIds := r1.skippedIds ++ r2.skippedIds }

/-- `reload_schedules()`: queries the active schedules —
`find({"is_active": True}).to_list(1000)`, i.e. at most the first 1000
matching documents — and folds the loop body over them in order.  Active
schedules beyond the 1000-document cap are never seen by the loop. -/
def reload_schedules (raisesFor : String → Bool) (schedules : List Schedule)
    (now : Time) : ReloadResult :=
  reloadGo raisesFor now ((schedules.filter (fun s => s.is_active)).take 1000)

/-! ## Routes (`create_schedule`, `test_run_schedule`, `send_message_now`) -/

/-- The request body `ScheduledMessageCreate`. -/
structure CreateData where
  contact_id : String
  message : String
  schedule_type : String
  scheduled_time : Option Time := none
  cron_expression : Option String := none
  cron_description : Option String := none
  deriving Repr, DecidableEq

/-- What the `POST /schedules` handler returns: an `HTTPException` or the
created schedule document. -/
inductive CreateOutcome where
  | httpError (code : Nat) (detail : String)
  | created (schedule : Schedule)
  deriving Repr, DecidableEq

/-- `create_schedule(data)`: looks the contact up (404 when absent), builds
the `ScheduledMessage` with its model defaults (`is_active = True`), inserts
it into the `schedules` collection, then calls `add_schedule_job` —
*ignoring its return value* — and returns the schedule.  `newId` and `now`
stand for the generated uuid and `created_at`; `cronRaises` says whether the
trigger construction inside `add_schedule_job` raises. -/
def create_schedule (db : Db) (data : CreateData) (newId : String)
    (now : Time) (cronRaises : Bool) :
    Db × Option (String × Trigger) × CreateOutcome :=
  match db.contacts.find? (fun c => c.id == data.contact_id) with
  | none => (db, none, .httpError 404 "Contact not found")
  | some contact =>
    let schedule : Schedule :=
      { id := newId
        contact_id := data.contact_id
        contact_name := contact.name
        contact_phone := contact.phone
        message := data.message
        schedule_type := data.schedule_type
        scheduled_time := data.scheduled_time
        cron_expression := data.cron_expression
        cron_description := data.cron_description
        created_at := now }
    let db2 := { db with schedules := db.schedules ++ [schedule] }
    let reg := (add_schedule_job cronRaises schedule.id data.schedule_type
      data.scheduled_time data.cron_expression).1
    (db2, reg, .created schedule)

/-- `test_run_schedule(schedule_id)`: 404 when the schedule does not exist
(modelled as `none`); otherwise runs `execute_scheduled_message` and returns
a dict whose `success` field is the literal `True`, whatever the executor
and gateway did. -/
def test_run_schedule (db : Db) (sid : String) (now : Time)
    (outcomes : Nat → AttemptOutcome) : Db × Option Bool :=
  match db.schedules.find? (fun s => s.id == sid) with
  | none => (db, none)
  | some _ => (executeWithGateway db sid now outcomes, some true)

/-- `send_message_now(contact_id, message)`: 404 when the contact does not
exist (modelled as `none`); otherwise calls `send_whatsapp_message`, appends
one MessageLog entry, and returns the gateway result dict unchanged. -/
def send_message_now (db : Db) (contact_id message : String) (now : Time)
    (outcomes : Nat → AttemptOutcome) : Db × Option GwResult :=
  match db.contacts.find? (fun c => c.id == contact_id) with
  | none => (db, none)
  | some contact =>
    let tr := send_whatsapp_message outcomes 3
    let log : MessageLog :=
      { contact_id := contact_id
        contact_name := contact.name
        contact_phone := contact.phone
        message := message
        status := if tr.result.success then "sent" else "failed"
        error_message := tr.result.error
        sent_at := now }
    ({ db with logs := db.logs ++ [log] }, some tr.result)

/-! ## Concurrent executor invocations

`execute_scheduled_message` is an async coroutine with awaits (suspension
points) between its store operations.  An invocation is modelled as a small
program whose atomic steps are exactly the awaited store operations of the
Python code: the claim (`find_one_and_update`), the gateway send (touches no
store state), the log insert, and the schedule update.  A system state is
the shared store plus the list of in-flight invocations; any interleaving of
their steps is a trace. -/

/-- Program counter of one in-flight `execute_scheduled_message` invocation.
The claimed phases carry the document returned by the claim. -/
inductive Phase where
  | ready
  | claimed (doc : Schedule)
  | sentMsg (doc : Schedule)
  | logged (doc : Schedule)
  | finished (didClaim : Bool)
  deriving Repr, DecidableEq

/-- One invocation of `execute_scheduled_message schedule_id` at wall-clock
time `now`, whose gateway send (if reached) returns `result`. -/
structure Invocation where
  sid : String
  now : Time
  result : GwResult
  phase : Phase
  deriving Repr, DecidableEq

/-- The kind of atomic step an invocation just performed (for stating which
interleavings a hypothesis admits). -/
inductive EventKind where
  | claimOk
  | claimFail
  | sendStep
  | logStep
  | updateStep
  | idle
  deriving Repr, DecidableEq

/-- One atomic step of one invocation against the shared store: exactly the
corresponding fragment of `execute_scheduled_message`. -/
def stepInv (db : Db) (inv : Invocation) : Db × Invocation × EventKind :=
  match inv.phase with
  | .ready =>
    match findOneAndUpdateClaim db.schedules inv.sid inv.now with
    | (some doc, schedules1) =>
      ({ db with schedules := schedules1 },
       { inv with phase := .claimed doc }, .claimOk)
    | (none, _) =>
      (db, { inv with phase := .finished false }, .claimFail)
  | .claimed doc =>
    (db, { inv with phase := .sentMsg doc }, .sendStep)
  | .sentMsg doc =>
    ({ db with logs := db.logs ++ [mkLog doc inv.sid inv.result inv.now] },
     { inv with phase := .logged doc }, .logStep)
  | .logged doc =>
    let schedules2 :=
      updateOneById db.schedules inv.sid (releaseUpdate doc.schedule_type inv.now)
    ({ db with schedules := schedules2 },
     { inv with phase := .finished true }, .updateStep)
  | .finished _ =>
    (db, inv, .idle)

/-- Step the invocation at position `i` of the list (no-op when out of
range). -/
def stepInvs (db : Db) (invs : List Invocation) (i : Nat) :
    Db × List Invocation × EventKind :=
  match invs, i with
  | [], _ => (db, [], .idle)
  | inv :: rest, 0 =>
    let r := stepInv db inv
    (r.1, r.2.1 :: rest, r.2.2)
  | inv :: rest, i + 1 =>
    let r := stepInvs db rest i
    (r.1, inv :: r.2.1, r.2.2)

/-- Run a trace (a list of invocation indices, each performing its next
atomic step in turn), collecting the emitted events. -/
def runSys (db : Db) (invs : List Invocation) :
    List Nat → Db × List Invocation × List EventKind
  | [] => (db, invs, [])
  | i :: tr =>
    let r := stepInvs db invs i
    let r2 := runSys r.1 r.2.1 tr
    (r2.1, r2.2.1, r.2.2 :: r2.2.2)

/-- Is the event a claim attempt (successful or not)? -/
def isClaimEv : EventKind → Bool
  | .claimOk => true
  | .claimFail => true
  | _ => false

/-- The trace condition for logically-concurrent invocations: no invocation
attempts its claim after some invocation has already released the lease
(performed its schedule update).  A claim after the release belongs to a
later logical fire event, not to this concurrent batch. -/
def noClaimAfterRelease : List EventKind → Bool
  | [] => true
  | e :: rest =>
    (if e == .updateStep then rest.all (fun x => !isClaimEv x) else true) &&
      noClaimAfterRelease rest

/-- Has this invocation proceeded past the atomic claim? -/
def pastClaim : Phase → Bool
  | .ready => false
  | .claimed _ => true
  | .sentMsg _ => true
  | .logged _ => true
  | .finished b => b

/-- Is this invocation between its claim and its release? -/
def holding : Phase → Bool
  | .claimed _ => true
  | .sentMsg _ => true
  | .logged _ => true
  | _ => false

/-! ## Shared concrete samples (used by witnesses) -/

/-- A concrete active one-time schedule. -/
def sampleS : Schedule :=
  { id := "s1", contact_id := "c1", contact_name := "Alice"
    contact_phone := "15551234", message := "Hi"
    schedule_type := "once", scheduled_time := some 500 }

/-- A concrete active recurring schedule. -/
def sampleR : Schedule :=
  { id := "s2", contact_id := "c1", contact_name := "Alice"
    contact_phone := "15551234", message := "Hi"
    schedule_type := "recurring", cron_expression := some "0 9 * * *" }

/-- A concrete database holding `sampleS`. -/
def sampleDb : Db := { schedules := [sampleS] }

/-- Gateway behaviour: every attempt succeeds. -/
def okOutcomes : Nat → AttemptOutcome := fun _ => .resp { success := true }

/-- Gateway behaviour: every attempt raises a network exception. -/
def failOutcomes : Nat → AttemptOutcome := fun _ => .exc "timeout"

/-- A transient attempt outcome: an exception, or a non-success response
whose error matches no permanent-failure substring. -/
def transientOutcome : AttemptOutcome → Prop
  | .exc _ => True
  | .resp r => r.success = false ∧
      isPermanentFailure (r.error.getD "Unknown error") = false

/-- The `last_error` value an attempt outcome leaves behind. -/
def outcomeErr : AttemptOutcome → String
  | .exc m => m
  | .resp r => r.error.getD "Unknown error"

/-- Gateway behaviour: two transient failures, then success. -/
def ffsOutcomes : Nat → AttemptOutcome :=
  fun n => if n < 2 then .exc "timeout" else .resp { success := true }

/-- A concrete contact. -/
def sampleC : Contact := { id := "c1", name := "Alice", phone := "15551234" }

/-- A concrete database holding only `sampleC`. -/
def createDb : Db := { contacts := [sampleC] }

/-- A creation request for a recurring schedule whose cron expression the
cron parser rejects. -/
def badCronData : CreateData :=
  { contact_id := "c1", message := "Hi", schedule_type := "recurring"
    cron_expression := some "not a cron" }

/-- A concrete database holding `sampleC` and `sampleS`. -/
def routeDb : Db := { contacts := [sampleC], schedules := [sampleS] }

/-! ## Context and invariant of the concurrent-execution race -/

/-- The static context of a race: one schedule `s` with id `sid`, stored
between `pre` and `post`, initial logs `logs0` and contacts `contacts0`. -/
structure RaceCtx where
  sid : String
  pre : List Schedule
  post : List Schedule
  s : Schedule
  logs0 : List MessageLog := []
  contacts0 : List Contact := []

/-- Well-formedness: unique id, schedule active, lease free. -/
def RaceCtx.Ok (c : RaceCtx) : Prop :=
  c.s.id = c.sid ∧ c.s.is_active = true ∧ c.s._executing = none ∧
  (∀ x ∈ c.pre, x.id ≠ c.sid) ∧ (∀ x ∈ c.post, x.id ≠ c.sid)

/-- The immutable data of the invocations: all target `sid`, and all fire
times are within one lease window of each other (the logically-concurrent
batch of the claim). -/
def invStatics (c : RaceCtx) (invs : List Invocation) : Prop :=
  ∀ inv ∈ invs, inv.sid = c.sid ∧
    ∀ inv2 ∈ invs, inv.now ≤ inv2.now + leaseSeconds

/-- The database before anyone claims. -/
def storeInit (c : RaceCtx) : Db :=
  { contacts := c.contacts0, schedules := c.pre ++ c.s :: c.post
    logs := c.logs0 }

/-- The schedule while the lease is held by a claim made at time `t`. -/
def sHeld (c : RaceCtx) (t : Time) : Schedule :=
  { c.s with _executing := some t }

/-- The database while the winning invocation (claim time `t`, gateway
result `r`) holds the lease; `loggedFlag` says whether it has already
inserted its log entry. -/
def storeHeld (c : RaceCtx) (t : Time) (loggedFlag : Bool) (r : GwResult) : Db :=
  { contacts := c.contacts0, schedules := c.pre ++ sHeld c t :: c.post
    logs := if loggedFlag then c.logs0 ++ [mkLog c.s c.sid r t] else c.logs0 }

/-- The database after the winning invocation has updated and released. -/
def storeDone (c : RaceCtx) (t : Time) (r : GwResult) : Db :=
  { contacts := c.contacts0
    schedules :=
      c.pre ++ releaseUpdate c.s.schedule_type t (sHeld c t) :: c.post
    logs := c.logs0 ++ [mkLog c.s c.sid r t] }

/-- An invocation that has not passed the claim: still to attempt it, or
finished without claiming. -/
def readyOrLost (inv : Invocation) : Prop :=
  inv.phase = Phase.ready ∨ inv.phase = Phase.finished false

/-- Invariant of the race while nobody has released yet: either nobody has
claimed (store untouched, everyone ready), or exactly one invocation holds
the lease (its claim document is `c.s`) and everyone else is ready or has
lost its claim. -/
inductive RaceBusy (c : RaceCtx) : Db → List Invocation → Prop where
  | start (invs : List Invocation)
      (hready : ∀ inv ∈ invs, inv.phase = Phase.ready) :
      RaceBusy c (storeInit c) invs
  | held (invs : List Invocation) (w : Fin invs.length) (flag : Bool)
      (hph : (flag = false ∧ ((invs.get w).phase = Phase.claimed c.s ∨
          (invs.get w).phase = Phase.sentMsg c.s)) ∨
        (flag = true ∧ (invs.get w).phase = Phase.logged c.s))
      (hothers : ∀ j : Fin invs.length, (j : Nat) ≠ (w : Nat) →
        readyOrLost (invs.get j)) :
      RaceBusy c (storeHeld c (invs.get w).now flag (invs.get w).result) invs

/-- State of the race after the winner has released: one invocation
finished having claimed, all others ready or lost, store fully updated. -/
def RaceDone (c : RaceCtx) (db : Db) (invs : List Invocation) : Prop :=
  ∃ w : Fin invs.length, (invs.get w).phase = Phase.finished true ∧
    (∀ j : Fin invs.length, (j : Nat) ≠ (w : Nat) →
      readyOrLost (invs.get j)) ∧
    db = storeDone c (invs.get w).now (invs.get w).result

/-- A concrete race context around `sampleS`. -/
def raceC : RaceCtx := { sid := "s1", pre := [], post := [], s := sampleS }

/-- Two concurrent invocations of the executor on `sampleS`, fire times 60
seconds apart (well within one lease window). -/
def raceInvs : List Invocation :=
  [{ sid := "s1", now := 100, result := { success := true }, phase := .ready },
   { sid := "s1", now := 160, result := { success := true }, phase := .ready }]

/-- An active recurring schedule sitting beyond the reload query cap. -/
def overflowB : Schedule := { sampleR with id := "zz" }

/-- A store with 1000 active schedules ahead of `overflowB`: the reload
query (`.to_list(1000)`) returns only the first 1000, so `overflowB` is
never seen by the reload loop. -/
def overflowSchedules : List Schedule :=
  List.replicate 1000 sampleR ++ [overflowB]

/-! ## Helper lemmas about the store primitives -/

lemma claimFilter_of_id_ne {sid : String} {now : Time} {x : Schedule}
    (h : x.id ≠ sid) : claimFilter sid now x = false := by
  simp [claimFilter, h]

lemma findOneAndUpdateClaim_none {l : List Schedule} {sid : String}
    {now : Time} (h : ∀ x ∈ l, claimFilter sid now x = false) :
    findOneAndUpdateClaim l sid now = (none, l) := by
  induction l with
  | nil => simp [findOneAndUpdateClaim]
  | cons a t ih =>
    have ha := h a (by simp)
    have ht := ih (fun x hx => h x (by simp [hx]))
    simp [findOneAndUpdateClaim, ha, ht]

/-- With a unique id in the collection, the atomic claim matches exactly the
schedule with that id, and succeeds exactly when the claim filter holds of
it. -/
lemma findOneAndUpdateClaim_unique {pre post : List Schedule} {s : Schedule}
    {sid : String} {now : Time}
    (hpre : ∀ x ∈ pre, x.id ≠ sid) (hs : s.id = sid)
    (hpost : ∀ x ∈ post, x.id ≠ sid) :
    findOneAndUpdateClaim (pre ++ s :: post) sid now =
      if claimFilter sid now s then
        (some s, pre ++ { s with _executing := some now } :: post)
      else (none, pre ++ s :: post) := by
  induction pre with
  | nil =>
    simp only [List.nil_append]
    by_cases hf : claimFilter sid now s
    · simp [findOneAndUpdateClaim, hf]
    · have hrest : ∀ x ∈ s :: post, claimFilter sid now x = false := by
        intro x hx
        rcases List.mem_cons.mp hx with h1 | h2
        · subst h1; exact Bool.not_eq_true _ ▸ (by simpa using hf)
        · exact claimFilter_of_id_ne (hpost x h2)
      simp [findOneAndUpdateClaim_none hrest, hf]
  | cons a t ih =>
    have ha : claimFilter sid now a = false :=
      claimFilter_of_id_ne (hpre a (by simp))
    have ht := ih (fun x hx => hpre x (by simp [hx]))
    by_cases hf : claimFilter sid now s <;>
      simp [findOneAndUpdateClaim, ha, ht, hf]

lemma updateOneById_unique {pre post : List Schedule} {s : Schedule}
    {sid : String} (f : Schedule → Schedule)
    (hpre : ∀ x ∈ pre, x.id ≠ sid) (hs : s.id = sid) :
    updateOneById (pre ++ s :: post) sid f = pre ++ f s :: post := by
  induction pre with
  | nil => simp [updateOneById, hs]
  | cons a t ih =>
    have ha : (a.id == sid) = false := by
      simpa using hpre a (by simp)
    have ht := ih (fun x hx => hpre x (by simp [hx]))
    simp [updateOneById, ha, ht]

/-- When the claim returns no document, `execute_scheduled_message` leaves
the whole database untouched. -/
lemma execute_of_claim_none {db : Db} {sid : String} {now : Time}
    {r : GwResult} (h : (findOneAndUpdateClaim db.schedules sid now).1 = none) :
    execute_scheduled_message db sid now r = db := by
  unfold execute_scheduled_message
  rcases hc : findOneAndUpdateClaim db.schedules sid now with ⟨doc, l⟩
  rcases doc with _ | d
  · rfl
  · rw [hc] at h; simp at h

/-- When the claim succeeds on the (unique-id) schedule `s`, the executor
runs to completion: one log entry is appended and the schedule is rewritten
by the release update. -/
lemma execute_of_claim_some {db : Db} {pre post : List Schedule}
    {s : Schedule} {sid : String} {now : Time} {r : GwResult}
    (hdb : db.schedules = pre ++ s :: post)
    (hpre : ∀ x ∈ pre, x.id ≠ sid) (hs : s.id = sid)
    (hpost : ∀ x ∈ post, x.id ≠ sid)
    (hf : claimFilter sid now s = true) :
    execute_scheduled_message db sid now r =
      { db with
        schedules :=
          pre ++ releaseUpdate s.schedule_type now { s with _executing := some now } :: post
        logs := db.logs ++ [mkLog s sid r now] } := by
  have hclaim := @findOneAndUpdateClaim_unique pre post s sid now hpre hs hpost
  rw [hf] at hclaim
  have hupd := @updateOneById_unique pre post { s with _executing := some now }
    sid (releaseUpdate s.schedule_type now) hpre
    (show Schedule.id { s with _executing := some now } = sid from hs)
  unfold execute_scheduled_message
  rw [hdb, hclaim]
  simp [hupd]

/-- The claim filter, restated as a proposition (for a schedule whose id
matches). -/
lemma claimFilter_eq_true_iff {s : Schedule} {sid : String} {now : Time}
    (hs : s.id = sid) :
    claimFilter sid now s = true ↔
      (s.is_active = true ∧ (s._executing = none ∨
        ∃ t, s._executing = some t ∧ t < now - leaseSeconds)) := by
  cases hex : s._executing <;> simp [claimFilter, hs, hex]

lemma claimFilter_active {s : Schedule} {sid : String} {now : Time}
    (hf : claimFilter sid now s = true) : s.is_active = true := by
  simp only [claimFilter, Bool.and_eq_true] at hf
  exact hf.1.2

/-! ## C2 — claim succeeds iff active and lease free/stale; failed claim is
a complete no-op -/

/-- C2: the claim step succeeds iff the stored schedule has
`is_active = true` and `_executing` unset, null, or strictly older than
`now` minus the 5-minute lease; a lease set to now−6min (360s) is claimable,
one set to now−1min (60s) is not, and one exactly at the now−5min boundary
is still held; when the claim fails the invocation leaves the database
(schedules and logs) entirely unchanged. -/
theorem C2_claim_semantics
    (pre post : List Schedule) (s : Schedule) (sid : String) (now : Time)
    (r : GwResult)
    (hpre : ∀ x ∈ pre, x.id ≠ sid) (hs : s.id = sid)
    (hpost : ∀ x ∈ post, x.id ≠ sid) :
    (((findOneAndUpdateClaim (pre ++ s :: post) sid now).1 ≠ none) ↔
      (s.is_active = true ∧ (s._executing = none ∨
        ∃ t, s._executing = some t ∧ t < now - leaseSeconds))) ∧
    (s.is_active = true →
      (findOneAndUpdateClaim
        (pre ++ { s with _executing := some (now - 360) } :: post) sid now).1 =
        some { s with _executing := some (now - 360) }) ∧
    ((findOneAndUpdateClaim
        (pre ++ { s with _executing := some (now - 60) } :: post) sid now).1 =
        none) ∧
    ((findOneAndUpdateClaim
        (pre ++ { s with _executing := some (now - leaseSeconds) } :: post)
        sid now).1 = none) ∧
    (∀ db : Db, (findOneAndUpdateClaim db.schedules sid now).1 = none →
      execute_scheduled_message db sid now r = db) := by
  refine ⟨?_, ?_, ?_, ?_, fun db h => execute_of_claim_none h⟩
  · rw [findOneAndUpdateClaim_unique hpre hs hpost]
    by_cases hf : claimFilter sid now s
    · simp [hf, (claimFilter_eq_true_iff hs).mp hf]
    · rw [if_neg hf]
      constructor
      · intro h; exact absurd rfl h
      · intro hr; exact absurd ((claimFilter_eq_true_iff hs).mpr hr) hf
  · intro hact
    have hu := @findOneAndUpdateClaim_unique pre post
      { s with _executing := some (now - 360) } sid now hpre hs hpost
    have hf : claimFilter sid now { s with _executing := some (now - 360) } = true := by
      simp only [claimFilter, leaseSeconds]
      simp [hs, hact]
    rw [hu]
    simp [hf]
  · have hu := @findOneAndUpdateClaim_unique pre post
      { s with _executing := some (now - 60) } sid now hpre hs hpost
    have hf : claimFilter sid now { s with _executing := some (now - 60) } = false := by
      simp only [claimFilter, leaseSeconds]
      simp [hs]
    rw [hu]
    simp [hf]
  · have hu := @findOneAndUpdateClaim_unique pre post
      { s with _executing := some (now - leaseSeconds) } sid now hpre hs hpost
    have hf : claimFilter sid now
        { s with _executing := some (now - leaseSeconds) } = false := by
      simp only [claimFilter, leaseSeconds]
      simp [hs]
    rw [hu]
    simp [hf]

/-- Witness for `C2_claim_semantics` at `now = 1000` on a concrete store:
the −360s lease is claimable, the −60s and boundary leases are not. -/
theorem C2_claim_semantics_witness :
    ((findOneAndUpdateClaim [{ sampleS with _executing := some (1000 - 360) }]
        "s1" 1000).1 = some { sampleS with _executing := some (1000 - 360) }) ∧
    ((findOneAndUpdateClaim [{ sampleS with _executing := some (1000 - 60) }]
        "s1" 1000).1 = none) ∧
    ((findOneAndUpdateClaim [{ sampleS with _executing := some (1000 - leaseSeconds) }]
        "s1" 1000).1 = none) := by
  have h := C2_claim_semantics [] [] sampleS "s1" 1000 { success := true }
    (by simp) rfl (by simp)
  exact ⟨h.2.1 rfl, h.2.2.1, h.2.2.2.1⟩

/-! ## C3 — successful execution updates and releases the schedule -/

/-- C3: after a successful claim, the executor sets `last_run` to the claim
time and clears `_executing`; exactly when `schedule_type = "once"` it also
sets `is_active = false` and `completed_at` to the claim time, while any
other (e.g. recurring) schedule keeps `is_active = true` and its
`completed_at` unchanged. -/
theorem C3_update_and_release
    (db : Db) (pre post : List Schedule) (s : Schedule) (sid : String)
    (now : Time) (r : GwResult)
    (hdb : db.schedules = pre ++ s :: post)
    (hpre : ∀ x ∈ pre, x.id ≠ sid) (hs : s.id = sid)
    (hpost : ∀ x ∈ post, x.id ≠ sid)
    (hf : claimFilter sid now s = true) :
    ∃ upd, (execute_scheduled_message db sid now r).schedules =
        pre ++ upd :: post ∧
      upd.last_run = some now ∧
      upd._executing = none ∧
      (s.schedule_type = "once" →
        upd.is_active = false ∧ upd.completed_at = some now) ∧
      (s.schedule_type ≠ "once" →
        upd.is_active = true ∧ upd.completed_at = s.completed_at) := by
  rw [execute_of_claim_some hdb hpre hs hpost hf]
  refine ⟨releaseUpdate s.schedule_type now { s with _executing := some now },
    rfl, ?_, ?_, ?_, ?_⟩ <;>
    by_cases ht : s.schedule_type = "once" <;>
      simp [releaseUpdate, ht, claimFilter_active hf]

/-- Witness for `C3_update_and_release`: executing the concrete one-time
schedule `sampleS` at time 1000. -/
theorem C3_update_and_release_witness :
    ∃ upd, (execute_scheduled_message sampleDb "s1" 1000
        { success := true }).schedules = [] ++ upd :: [] ∧
      upd.last_run = some 1000 ∧
      upd._executing = none ∧
      (sampleS.schedule_type = "once" →
        upd.is_active = false ∧ upd.completed_at = some 1000) ∧
      (sampleS.schedule_type ≠ "once" →
        upd.is_active = true ∧ upd.completed_at = sampleS.completed_at) :=
  C3_update_and_release sampleDb [] [] sampleS "s1" 1000 { success := true }
    rfl (by simp) rfl (by simp) (by decide)

/-! ## C4 — exactly one MessageLog entry per successful claim -/

/-- C4: when the claim succeeds, exactly one MessageLog entry is appended —
status `"sent"` iff the gateway result has `success = true`, else
`"failed"` — carrying the gateway error detail and
`scheduled_message_id = schedule_id`; the gateway's internal retries are
invisible here (the executor sees one result dict per invocation, whatever
`outcomes` each attempt produced); when the claim fails nothing is appended
and the database is unchanged. -/
theorem C4_exactly_one_log
    (db : Db) (pre post : List Schedule) (s : Schedule) (sid : String)
    (now : Time) (outcomes : Nat → AttemptOutcome)
    (hdb : db.schedules = pre ++ s :: post)
    (hpre : ∀ x ∈ pre, x.id ≠ sid) (hs : s.id = sid)
    (hpost : ∀ x ∈ post, x.id ≠ sid) :
    (claimFilter sid now s = true →
      ∃ entry, (executeWithGateway db sid now outcomes).logs =
          db.logs ++ [entry] ∧
        entry.status = (if (send_whatsapp_message outcomes 3).result.success
          then "sent" else "failed") ∧
        entry.error_message = (send_whatsapp_message outcomes 3).result.error ∧
        entry.scheduled_message_id = some sid ∧
        entry.contact_id = s.contact_id ∧
        entry.contact_phone = s.contact_phone ∧
        entry.message = s.message) ∧
    (claimFilter sid now s = false →
      executeWithGateway db sid now outcomes = db) := by
  constructor
  · intro hf
    unfold executeWithGateway
    rw [execute_of_claim_some hdb hpre hs hpost hf]
    exact ⟨mkLog s sid (send_whatsapp_message outcomes 3).result now,
      rfl, rfl, rfl, rfl, rfl, rfl, rfl⟩
  · intro hf
    unfold executeWithGateway
    apply execute_of_claim_none
    rw [hdb, findOneAndUpdateClaim_unique hpre hs hpost, hf]
    simp

/-- Witness for `C4_exactly_one_log`: the concrete schedule `sampleS`, with
a gateway whose every attempt raises (so the single returned result is the
aggregated failure) — still exactly one log entry. -/
theorem C4_exactly_one_log_witness :
    (claimFilter "s1" 1000 sampleS = true →
      ∃ entry, (executeWithGateway sampleDb "s1" 1000 failOutcomes).logs =
          sampleDb.logs ++ [entry] ∧
        entry.status = (if (send_whatsapp_message failOutcomes 3).result.success
          then "sent" else "failed") ∧
        entry.error_message = (send_whatsapp_message failOutcomes 3).result.error ∧
        entry.scheduled_message_id = some "s1" ∧
        entry.contact_id = sampleS.contact_id ∧
        entry.contact_phone = sampleS.contact_phone ∧
        entry.message = sampleS.message) ∧
    (claimFilter "s1" 1000 sampleS = false →
      executeWithGateway sampleDb "s1" 1000 failOutcomes = sampleDb) :=
  C4_exactly_one_log sampleDb [] [] sampleS "s1" 1000 failOutcomes
    rfl (by simp) rfl (by simp)

/-! ## C6 — permanent failures are not retried -/

/-- C6: a first-attempt gateway response with `success = false` whose error
contains a permanent-failure substring is returned immediately: exactly one
attempt, no backoff delay, and the result dict is returned as-is. -/
theorem C6_permanent_failure_no_retry
    (outcomes : Nat → AttemptOutcome) (r : GwResult) (e : String)
    (h0 : outcomes 0 = .resp r) (hsucc : r.success = false)
    (herr : r.error = some e) (hperm : isPermanentFailure e = true) :
    send_whatsapp_message outcomes 3 =
      { result := r, attempts := 1, delays := [] } := by
  simp [send_whatsapp_message, sendGo, h0, hsucc, herr, hperm]

/-- Witness for `C6_permanent_failure_no_retry`: an error containing
"not registered" returns after exactly 1 attempt with no delay. -/
theorem C6_permanent_failure_no_retry_witness :
    send_whatsapp_message
      (fun _ => .resp { success := false, error := some "Number is NOT Registered on WhatsApp" }) 3 =
      { result := { success := false, error := some "Number is NOT Registered on WhatsApp" },
        attempts := 1, delays := [] } :=
  C6_permanent_failure_no_retry _ _ "Number is NOT Registered on WhatsApp"
    rfl rfl rfl (by decide)

/-! ## C10 — add_schedule_job returns True even when it registers nothing -/

/-- C10: `add_schedule_job` returns `True` whenever no scheduler exception
occurs, even when neither trigger branch runs (`once` with no
`scheduled_time`, `recurring` with no `cron_expression`, or any other
`schedule_type`), registering nothing; `False` is returned only when the
underlying scheduler (or cron parser) raises. -/
theorem C10_add_job_true_on_noop
    (raises : Bool) (sid ty : String) (t : Option Time) (cr : Option String) :
    (ty = "once" → t = none →
      add_schedule_job raises sid ty t cr = (none, true)) ∧
    (ty = "recurring" → cr = none →
      add_schedule_job raises sid ty t cr = (none, true)) ∧
    (ty ≠ "once" → ty ≠ "recurring" →
      add_schedule_job raises sid ty t cr = (none, true)) ∧
    ((add_schedule_job raises sid ty t cr).2 = false → raises = true) := by
  refine ⟨?_, ?_, ?_, ?_⟩
  · intro hty hnone
    subst hty; subst hnone
    simp [add_schedule_job]
  · intro hty hnone
    subst hty; subst hnone
    simp [add_schedule_job]
  · intro h1 h2
    have b1 : (ty == "once") = false := by simpa using h1
    have b2 : (ty == "recurring") = false := by simpa using h2
    simp [add_schedule_job, b1, b2]
  · intro hfalse
    by_contra hr
    have hr2 : raises = false := by simpa using hr
    subst hr2
    have htrue : (add_schedule_job false sid ty t cr).2 = true := by
      rcases t with _ | tv <;> rcases cr with _ | cv <;>
        simp only [add_schedule_job] <;> split_ifs <;> simp_all
    simp [htrue] at hfalse

/-- Witness for `C10_add_job_true_on_noop`: a `once` schedule with no
`scheduled_time` silently returns `True` with no registration, and the
return value `false` can only come from a raise. -/
theorem C10_add_job_true_on_noop_witness :
    add_schedule_job false "s9" "once" none (some "0 9 * * *") = (none, true) :=
  (C10_add_job_true_on_noop false "s9" "once" none (some "0 9 * * *")).1 rfl rfl

/-! ## C5 — retry policy of the gateway client -/

/-- Invariant of the retry loop: along a real execution the accumulated
delays are exactly `2 ^ attempt` for the already-failed attempts, so every
exit returns delays `[2^0, ..., 2^(attempts-2)]` and at most `M` attempts
are made. -/
lemma sendGo_delays_spec (outcomes : Nat → AttemptOutcome) (M : Nat)
    (hM : 1 ≤ M) :
    ∀ rem le acc, rem ≤ M →
      acc = ((List.range (min (M - rem) (M - 1))).map
        (fun i => (2 : Nat) ^ i)).reverse →
      (sendGo outcomes M rem le acc).attempts ≤ M ∧
      (sendGo outcomes M rem le acc).delays =
        (List.range ((sendGo outcomes M rem le acc).attempts - 1)).map
          (fun i => (2 : Nat) ^ i) := by
  intro rem
  induction rem with
  | zero =>
    intro le acc _ hacc
    have hmin : min (M - 0) (M - 1) = M - 1 :=
      min_eq_right (Nat.sub_le_sub_left (by omega) M)
    rw [hmin] at hacc
    simp [sendGo, hacc]
  | succ r ih =>
    intro le acc hrem hacc
    have hattempt : M - (r + 1) ≤ M - 1 := Nat.sub_le_sub_left (by omega) M
    have hmin : min (M - (r + 1)) (M - 1) = M - (r + 1) := min_eq_left hattempt
    rw [hmin] at hacc
    have hexit : ∀ res : GwResult,
        ({ result := res, attempts := M - (r + 1) + 1,
           delays := acc.reverse } : SendTrace).attempts ≤ M ∧
        ({ result := res, attempts := M - (r + 1) + 1,
           delays := acc.reverse } : SendTrace).delays =
          (List.range (M - (r + 1) + 1 - 1)).map (fun i => (2 : Nat) ^ i) := by
      intro res
      constructor
      · simp; omega
      · simp [hacc]
    have hnext : ∀ le2 : Option String,
        (if M - (r + 1) < M - 1 then
            sendGo outcomes M r le2 ((2 : Nat) ^ (M - (r + 1)) :: acc)
          else sendGo outcomes M r le2 acc).attempts ≤ M ∧
        (if M - (r + 1) < M - 1 then
            sendGo outcomes M r le2 ((2 : Nat) ^ (M - (r + 1)) :: acc)
          else sendGo outcomes M r le2 acc).delays =
          (List.range ((if M - (r + 1) < M - 1 then
              sendGo outcomes M r le2 ((2 : Nat) ^ (M - (r + 1)) :: acc)
            else sendGo outcomes M r le2 acc).attempts - 1)).map
              (fun i => (2 : Nat) ^ i) := by
      intro le2
      by_cases hlt : M - (r + 1) < M - 1
      · simp only [if_pos hlt]
        apply ih le2 ((2 : Nat) ^ (M - (r + 1)) :: acc) (by omega)
        have hr1 : 1 ≤ r := by omega
        have hminr : min (M - r) (M - 1) = M - r :=
          min_eq_left (Nat.sub_le_sub_left hr1 M)
        have hsub : M - r = (M - (r + 1)) + 1 := by omega
        rw [hminr, hsub, List.range_succ]
        simp [hacc]
      · simp only [if_neg hlt]
        have hr0 : r = 0 := by omega
        subst hr0
        apply ih le acc (by omega)
        have hmin0 : min (M - 0) (M - 1) = M - 1 :=
          min_eq_right (Nat.sub_le_sub_left (by omega) M)
        rw [hmin0]
        have : M - 1 = M - (0 + 1) := rfl
        rw [this]
        exact hacc
    show (match outcomes (M - (r + 1)) with
      | .resp res =>
        if res.success then _ else _
      | .exc _ => _ : SendTrace).attempts ≤ M ∧ _
    cases houc : outcomes (M - (r + 1)) with
    | exc m =>
      simpa [sendGo, houc] using hnext (some m)
    | resp res =>
      by_cases hsucc : res.success
      · simpa [sendGo, houc, hsucc] using hexit res
      · by_cases hperm : isPermanentFailure (res.error.getD "Unknown error")
        · simpa [sendGo, houc, hsucc, hperm] using hexit res
        · simpa [sendGo, houc, hsucc, hperm] using
            hnext (some (res.error.getD "Unknown error"))

end WASched

namespace WASched

/-- C5: the gateway client makes at most 3 attempts, and the delays slept
between consecutive attempts are exactly `2 ^ attempt` seconds for each
non-final failed attempt (`[1]` after one failure, `[1, 2]` after two); in
the scenario of two transient failures followed by a success, exactly 3
attempts occur with delays 1s then 2s and the returned result has
`success = true`; and when all 3 attempts fail transiently the result is
`success = false` with the aggregated error message. -/
theorem C5_retry_with_backoff (outcomes : Nat → AttemptOutcome) :
    ((send_whatsapp_message outcomes 3).attempts ≤ 3 ∧
      (send_whatsapp_message outcomes 3).delays =
        (List.range ((send_whatsapp_message outcomes 3).attempts - 1)).map
          (fun i => (2 : Nat) ^ i)) ∧
    (transientOutcome (outcomes 0) → transientOutcome (outcomes 1) →
      (∃ r, outcomes 2 = .resp r ∧ r.success = true) →
      (send_whatsapp_message outcomes 3).attempts = 3 ∧
      (send_whatsapp_message outcomes 3).delays = [1, 2] ∧
      (send_whatsapp_message outcomes 3).result.success = true) ∧
    (transientOutcome (outcomes 0) → transientOutcome (outcomes 1) →
      transientOutcome (outcomes 2) →
      (send_whatsapp_message outcomes 3).result.success = false ∧
      (send_whatsapp_message outcomes 3).result.error =
        some ("Failed after 3 attempts: " ++ outcomeErr (outcomes 2))) := by
  refine ⟨?_, ?_, ?_⟩
  · exact sendGo_delays_spec outcomes 3 (by omega) 3 none [] (by omega) (by simp)
  · intro ht0 ht1 hs2
    obtain ⟨r2, h2, hr2⟩ := hs2
    cases h0 : outcomes 0 <;> cases h1 : outcomes 1 <;>
      rw [h0] at ht0 <;> rw [h1] at ht1 <;>
        simp only [transientOutcome] at ht0 ht1 <;>
          simp [send_whatsapp_message, sendGo, h0, h1, h2, hr2,
            ht0, ht1]
  · intro ht0 ht1 ht2
    cases h0 : outcomes 0 <;> cases h1 : outcomes 1 <;> cases h2 : outcomes 2 <;>
      rw [h0] at ht0 <;> rw [h1] at ht1 <;> rw [h2] at ht2 <;>
        simp only [transientOutcome] at ht0 ht1 ht2 <;>
          simp [send_whatsapp_message, sendGo, outcomeErr, lastErrorStr, h0, h1, h2,
            ht0, ht1, ht2] <;> rfl

end WASched

namespace WASched

/-- Witness for `C5_retry_with_backoff`: two timeouts then a success make
exactly 3 attempts, with delays 1s then 2s, and succeed. -/
theorem C5_retry_with_backoff_witness :
    (send_whatsapp_message ffsOutcomes 3).attempts = 3 ∧
    (send_whatsapp_message ffsOutcomes 3).delays = [1, 2] ∧
    (send_whatsapp_message ffsOutcomes 3).result.success = true :=
  (C5_retry_with_backoff ffsOutcomes).2.1
    (by simp [ffsOutcomes, transientOutcome])
    (by simp [ffsOutcomes, transientOutcome])
    ⟨{ success := true }, by simp [ffsOutcomes], rfl⟩

end WASched

namespace WASched

/-! ## C7 — reload_schedules registrations -/

lemma reloadStep_regs_id (rf : String → Bool) (now : Time) (x : Schedule) :
    ∀ p ∈ (reloadStep rf now x).regs, p.1 = x.id := by
  intro p hp
  rcases hst : x.scheduled_time with _ | t <;>
    rcases hcr : x.cron_expression with _ | c <;>
      simp only [reloadStep, add_schedule_job, hst, hcr] at hp <;>
        split_ifs at hp <;> simp_all

lemma reloadStep_recurring {rf : String → Bool} {now : Time} {x : Schedule}
    {c : String} (hty : x.schedule_type = "recurring")
    (hc : x.cron_expression = some c) (hcne : c ≠ "")
    (hr : rf x.id = false) :
    reloadStep rf now x =
      { regs := [(x.id, .recurringCron c)], loaded := 1, skippedIds := [] } := by
  simp [reloadStep, add_schedule_job, hty, hc, hcne, hr]

lemma reloadStep_once_future {rf : String → Bool} {now : Time} {x : Schedule}
    {t : Time} (hty : x.schedule_type = "once")
    (ht : x.scheduled_time = some t) (hnow : now < t)
    (hr : rf x.id = false) :
    reloadStep rf now x =
      { regs := [(x.id, .onceAt t)], loaded := 1, skippedIds := [] } := by
  simp [reloadStep, add_schedule_job, hty, ht, hnow, hr]

lemma reloadStep_once_lapsed {rf : String → Bool} {now : Time} {x : Schedule}
    {t : Time} (hty : x.schedule_type = "once")
    (ht : x.scheduled_time = some t) (hnow : t ≤ now) :
    reloadStep rf now x =
      { regs := [], loaded := 0, skippedIds := [x.id] } := by
  have h2 : ¬ now < t := not_lt.mpr hnow
  simp [reloadStep, hty, ht, h2]

lemma reloadGo_regs_mem {rf : String → Bool} {now : Time} :
    ∀ {l : List Schedule} {x : Schedule}, x ∈ l →
      ∀ p ∈ (reloadStep rf now x).regs, p ∈ (reloadGo rf now l).regs := by
  intro l
  induction l with
  | nil => intro x hx; simp at hx
  | cons a rest ih =>
    intro x hx p hp
    rcases List.mem_cons.mp hx with h1 | h2
    · subst h1
      simp [reloadGo, List.mem_append]
      exact Or.inl hp
    · simp [reloadGo, List.mem_append]
      exact Or.inr (ih h2 p hp)

lemma reloadGo_skipped_mem {rf : String → Bool} {now : Time} :
    ∀ {l : List Schedule} {x : Schedule}, x ∈ l →
      ∀ i ∈ (reloadStep rf now x).skippedIds,
        i ∈ (reloadGo rf now l).skippedIds := by
  intro l
  induction l with
  | nil => intro x hx; simp at hx
  | cons a rest ih =>
    intro x hx i hi
    rcases List.mem_cons.mp hx with h1 | h2
    · subst h1
      simp [reloadGo, List.mem_append]
      exact Or.inl hi
    · simp [reloadGo, List.mem_append]
      exact Or.inr (ih h2 i hi)

lemma reloadGo_regs_src {rf : String → Bool} {now : Time} :
    ∀ {l : List Schedule} {p : String × Trigger},
      p ∈ (reloadGo rf now l).regs →
      ∃ x ∈ l, p ∈ (reloadStep rf now x).regs := by
  intro l
  induction l with
  | nil => intro p hp; simp [reloadGo] at hp
  | cons a rest ih =>
    intro p hp
    simp only [reloadGo, List.mem_append] at hp
    rcases hp with h1 | h2
    · exact ⟨a, by simp, h1⟩
    · obtain ⟨x, hx, hpx⟩ := ih h2
      exact ⟨x, by simp [hx], hpx⟩

lemma reloadStep_skipped_id (rf : String → Bool) (now : Time) (x : Schedule) :
    ∀ i ∈ (reloadStep rf now x).skippedIds, i = x.id := by
  intro i hi
  rcases hst : x.scheduled_time with _ | t <;>
    rcases hcr : x.cron_expression with _ | c <;>
      simp only [reloadStep, add_schedule_job, hst, hcr] at hi <;>
        split_ifs at hi <;> simp_all

lemma reloadGo_skipped_src {rf : String → Bool} {now : Time} :
    ∀ {l : List Schedule} {i : String},
      i ∈ (reloadGo rf now l).skippedIds →
      ∃ x ∈ l, i ∈ (reloadStep rf now x).skippedIds := by
  intro l
  induction l with
  | nil => intro i hi; simp [reloadGo] at hi
  | cons a rest ih =>
    intro i hi
    simp only [reloadGo, List.mem_append] at hi
    rcases hi with h1 | h2
    · exact ⟨a, by simp, h1⟩
    · obtain ⟨x, hx, hpx⟩ := ih h2
      exact ⟨x, by simp [hx], hpx⟩

/-- With 1000 active schedules ahead of `overflowB`, the capped reload
query returns exactly those 1000 and drops `overflowB`. -/
lemma overflow_query :
    (overflowSchedules.filter (fun x => x.is_active)).take 1000 =
      List.replicate 1000 sampleR := by
  have hfil : overflowSchedules.filter (fun x => x.is_active) =
      overflowSchedules := by
    apply List.filter_eq_self.mpr
    intro x hx
    rcases List.mem_append.mp hx with h | h
    · rw [List.eq_of_mem_replicate h]; rfl
    · rw [List.mem_singleton.mp h]; rfl
  rw [hfil]
  show (List.replicate 1000 sampleR ++ [overflowB]).take 1000 = _
  exact List.take_left' (List.length_replicate 1000 sampleR)

/-- C7 as stated is false on the code: the reload query is capped at 1000
documents (`.to_list(1000)` in `reload_schedules`, job_manager.py line 58),
so with 1000 active schedules ahead of it the active recurring schedule
`overflowB` — cron expression present, trigger construction not raising —
gets no trigger registration and is not flagged as skipped either. -/
theorem C7_counterexample :
    overflowB ∈ overflowSchedules ∧
    overflowB.is_active = true ∧
    overflowB.schedule_type = "recurring" ∧
    overflowB.cron_expression = some "0 9 * * *" ∧
    (∀ trg, (overflowB.id, trg) ∉
      (reload_schedules (fun _ => false) overflowSchedules 1000).regs) ∧
    overflowB.id ∉
      (reload_schedules (fun _ => false) overflowSchedules 1000).skippedIds := by
  refine ⟨List.mem_append.mpr (Or.inr (List.mem_singleton.mpr rfl)),
    rfl, rfl, rfl, ?_, ?_⟩
  · intro trg htrg
    unfold reload_schedules at htrg
    rw [overflow_query] at htrg
    obtain ⟨x, hx, hpx⟩ := reloadGo_regs_src htrg
    have hid := reloadStep_regs_id _ _ _ _ hpx
    rw [List.eq_of_mem_replicate hx] at hid
    have hid2 : overflowB.id = sampleR.id := hid
    exact absurd hid2 (by decide)
  · intro hskip
    unfold reload_schedules at hskip
    rw [overflow_query] at hskip
    obtain ⟨x, hx, hpx⟩ := reloadGo_skipped_src hskip
    have hid := reloadStep_skipped_id _ _ _ _ hpx
    rw [List.eq_of_mem_replicate hx] at hid
    exact absurd hid (by decide)

/-- C7 (amended): the reload query returns at most the first 1000
`is_active` schedules (`.to_list(1000)`); an active schedule beyond that
cap is never seen by the loop (see `C7_counterexample`).  For every
schedule among the documents the query does return, whose trigger
registration does not raise: a recurring one with a cron expression gets a
trigger registration; a `once` one whose `scheduled_time` is still in the
future gets a trigger registration; and a `once` one whose time has
elapsed gets no registration at all and is flagged as skipped. -/
theorem C7_reload_semantics
    (raisesFor : String → Bool) (schedules : List Schedule) (now : Time)
    (s : Schedule)
    (hmem : s ∈ (schedules.filter (fun x => x.is_active)).take 1000)
    (hraise : raisesFor s.id = false)
    (huniq : (schedules.map (fun x => x.id)).Nodup) :
    (s.schedule_type = "recurring" → ∀ c, s.cron_expression = some c →
      c ≠ "" →
      (s.id, Trigger.recurringCron c) ∈
        (reload_schedules raisesFor schedules now).regs) ∧
    (s.schedule_type = "once" → ∀ t, s.scheduled_time = some t → now < t →
      (s.id, Trigger.onceAt t) ∈
        (reload_schedules raisesFor schedules now).regs) ∧
    (s.schedule_type = "once" → ∀ t, s.scheduled_time = some t → t ≤ now →
      s.id ∈ (reload_schedules raisesFor schedules now).skippedIds ∧
      ∀ trg, (s.id, trg) ∉ (reload_schedules raisesFor schedules now).regs) := by
  refine ⟨?_, ?_, ?_⟩
  · intro hty c hc hcne
    have hstep := @reloadStep_recurring raisesFor now s c hty hc hcne hraise
    apply reloadGo_regs_mem hmem
    rw [hstep]
    simp
  · intro hty t ht hnow
    have hstep := @reloadStep_once_future raisesFor now s t hty ht hnow hraise
    apply reloadGo_regs_mem hmem
    rw [hstep]
    simp
  · intro hty t ht hnow
    have hstep := @reloadStep_once_lapsed raisesFor now s t hty ht hnow
    constructor
    · apply reloadGo_skipped_mem hmem
      rw [hstep]
      simp
    · intro trg htrg
      obtain ⟨x, hxf, hpx⟩ := reloadGo_regs_src htrg
      have hxid : (s.id, trg).1 = x.id := reloadStep_regs_id _ _ _ _ hpx
      have hxmem : x ∈ schedules :=
        List.mem_of_mem_filter (List.take_subset _ _ hxf)
      have hsmem : s ∈ schedules :=
        List.mem_of_mem_filter (List.take_subset _ _ hmem)
      have hxs : x = s :=
        List.inj_on_of_nodup_map huniq hxmem hsmem (by simpa using hxid.symm)
      subst hxs
      rw [hstep] at hpx
      simp at hpx

end WASched

namespace WASched

/-- Witness for `C7_reload_semantics`: reloading `[sampleS, sampleR]` at
time 1000 (both within the 1000-document query cap) registers the
recurring schedule and skips (flags) the lapsed one-time schedule
(`scheduled_time = 500`) without registering it. -/
theorem C7_reload_semantics_witness :
    ("s2", Trigger.recurringCron "0 9 * * *") ∈
      (reload_schedules (fun _ => false) [sampleS, sampleR] 1000).regs ∧
    "s1" ∈ (reload_schedules (fun _ => false) [sampleS, sampleR] 1000).skippedIds ∧
    ∀ trg, ("s1", trg) ∉
      (reload_schedules (fun _ => false) [sampleS, sampleR] 1000).regs := by
  have h2 := C7_reload_semantics (fun _ => false) [sampleS, sampleR] 1000
    sampleR (by decide) rfl (by decide)
  have h1 := C7_reload_semantics (fun _ => false) [sampleS, sampleR] 1000
    sampleS (by decide) rfl (by decide)
  refine ⟨h2.1 rfl "0 9 * * *" rfl (by decide), ?_, ?_⟩
  · exact (h1.2.2 rfl 500 rfl (by norm_num)).1
  · exact (h1.2.2 rfl 500 rfl (by norm_num)).2

/-! ## C8 — configuration errors at schedule creation (corrected) -/

/-- C8 as stated is false: with a stored contact and a recurring request
whose cron expression makes the trigger constructor raise, `create_schedule`
does not fail — it returns the created schedule, stores it `is_active=true`,
and registers no trigger. -/
theorem C8_counterexample :
    (∃ sched, (create_schedule createDb badCronData "n1" 0 true).2.2 =
      CreateOutcome.created sched) ∧
    (create_schedule createDb badCronData "n1" 0 true).2.1 = none ∧
    ((create_schedule createDb badCronData "n1" 0 true).1.schedules.map
      (fun s => s.is_active)) = [true] :=
  ⟨⟨_, rfl⟩, rfl, rfl⟩

/-- C8 (amended): a creation request whose `contact_id` matches no stored
contact fails synchronously with 404 and stores nothing; but a recurring
schedule with a malformed cron expression is *not* rejected: the document
is stored with `is_active = true`, the caller is told success, and when the
trigger construction raises no registration is made (silent dangling
active schedule). -/
theorem C8_create_config_errors
    (db : Db) (data : CreateData) (newId : String) (now : Time)
    (cronRaises : Bool) :
    (db.contacts.find? (fun c => c.id == data.contact_id) = none →
      create_schedule db data newId now cronRaises =
        (db, none, .httpError 404 "Contact not found")) ∧
    (∀ contact, db.contacts.find? (fun c => c.id == data.contact_id) =
        some contact →
      ∃ sched, create_schedule db data newId now cronRaises =
          ({ db with schedules := db.schedules ++ [sched] },
           (add_schedule_job cronRaises newId data.schedule_type
             data.scheduled_time data.cron_expression).1,
           .created sched) ∧
        sched.is_active = true ∧ sched.id = newId ∧
        sched.schedule_type = data.schedule_type ∧
        (cronRaises = true →
          (add_schedule_job cronRaises newId data.schedule_type
            data.scheduled_time data.cron_expression).1 = none)) := by
  constructor
  · intro hnone
    unfold create_schedule
    rw [hnone]
  · intro contact hsome
    unfold create_schedule
    rw [hsome]
    refine ⟨_, rfl, rfl, rfl, rfl, ?_⟩
    intro hr
    subst hr
    rcases data.scheduled_time with _ | tv <;>
      rcases data.cron_expression with _ | cv <;>
        simp only [add_schedule_job] <;> split_ifs <;> simp_all

/-- Witness for `C8_create_config_errors`: the unknown-contact branch
rejects with 404, and the malformed-cron branch silently stores an active
schedule with no registration. -/
theorem C8_create_config_errors_witness :
    (create_schedule { contacts := [] } badCronData "n1" 0 true =
      ({ contacts := [] }, none, .httpError 404 "Contact not found")) ∧
    ∃ sched, create_schedule createDb badCronData "n1" 0 true =
        ({ createDb with schedules := createDb.schedules ++ [sched] },
         (add_schedule_job true "n1" badCronData.schedule_type
           badCronData.scheduled_time badCronData.cron_expression).1,
         .created sched) ∧
      sched.is_active = true ∧ sched.id = "n1" ∧
      sched.schedule_type = badCronData.schedule_type ∧
      (true = true →
        (add_schedule_job true "n1" badCronData.schedule_type
          badCronData.scheduled_time badCronData.cron_expression).1 = none) :=
  ⟨(C8_create_config_errors { contacts := [] } badCronData "n1" 0 true).1 rfl,
   (C8_create_config_errors createDb badCronData "n1" 0 true).2 sampleC rfl⟩

/-! ## C9 — synchronous results of test-run and send-now (corrected) -/

/-- C9 as stated is false for test-run: on an existing schedule whose
gateway send fails every attempt, `test_run_schedule` still answers
`success = true` while the gateway result has `success = false`. -/
theorem C9_counterexample :
    (test_run_schedule routeDb "s1" 1000 failOutcomes).2 = some true ∧
    (send_whatsapp_message failOutcomes 3).result.success = false :=
  ⟨rfl, rfl⟩

/-- C9 (amended): send-now mirrors the Message Gateway Client result
exactly (the returned dict is the gateway result); test-run, however,
returns `success = true` for every existing schedule regardless of the
gateway outcome; both 404 when the target does not exist. -/
theorem C9_sync_results
    (db : Db) (cid msg sid : String) (now : Time)
    (outcomes : Nat → AttemptOutcome) :
    (∀ contact, db.contacts.find? (fun c => c.id == cid) = some contact →
      (send_message_now db cid msg now outcomes).2 =
        some (send_whatsapp_message outcomes 3).result) ∧
    (∀ s, db.schedules.find? (fun x => x.id == sid) = some s →
      (test_run_schedule db sid now outcomes).2 = some true) ∧
    (db.contacts.find? (fun c => c.id == cid) = none →
      (send_message_now db cid msg now outcomes).2 = none) ∧
    (db.schedules.find? (fun x => x.id == sid) = none →
      (test_run_schedule db sid now outcomes).2 = none) := by
  refine ⟨?_, ?_, ?_, ?_⟩
  · intro contact hsome
    unfold send_message_now
    rw [hsome]
  · intro s hsome
    unfold test_run_schedule
    rw [hsome]
  · intro hnone
    unfold send_message_now
    rw [hnone]
  · intro hnone
    unfold test_run_schedule
    rw [hnone]

/-- Witness for `C9_sync_results`: on `routeDb`, send-now returns the
all-attempts-failed gateway result verbatim, and test-run returns
`success = true` despite the same failing gateway. -/
theorem C9_sync_results_witness :
    (send_message_now routeDb "c1" "Hi" 0 failOutcomes).2 =
      some (send_whatsapp_message failOutcomes 3).result ∧
    (test_run_schedule routeDb "s1" 0 failOutcomes).2 = some true :=
  ⟨(C9_sync_results routeDb "c1" "Hi" "s1" 0 failOutcomes).1 sampleC rfl,
   (C9_sync_results routeDb "c1" "Hi" "s1" 0 failOutcomes).2.1 sampleS rfl⟩

end WASched

namespace WASched

/-! ## C1 — helper lemmas for the concurrency race -/

lemma set_get_self : ∀ (l : List Invocation) (i : Nat) (h : i < l.length),
    l.set i (l.get ⟨i, h⟩) = l := by
  intro l
  induction l with
  | nil => intro i h; simp at h
  | cons a t ih =>
    intro i h
    cases i with
    | zero => rfl
    | succ n =>
      have := ih n (by simpa using h)
      simpa using this

lemma countP_eq_one_of_index (p : Invocation → Bool) :
    ∀ (l : List Invocation) (w : Nat) (hw : w < l.length),
      p (l.get ⟨w, hw⟩) = true →
      (∀ j (hj : j < l.length), j ≠ w → p (l.get ⟨j, hj⟩) = false) →
      l.countP p = 1 := by
  intro l
  induction l with
  | nil => intro w hw _ _; simp at hw
  | cons a t ih =>
    intro w hw hp hothers
    cases w with
    | zero =>
      have hpa : p a = true := hp
      have ht : t.countP p = 0 := by
        apply List.countP_eq_zero.mpr
        intro x hx
        obtain ⟨n, rfl⟩ := List.mem_iff_get.mp hx
        have hj := hothers (n.1 + 1) (by simp [Nat.succ_lt_succ n.2])
          (by omega)
        simpa using hj
      rw [List.countP_cons_of_pos p t hpa, ht]
    | succ v =>
      have hpa : p a = false := hothers 0 (by omega) (by omega)
      have hv : v < t.length := by simpa using hw
      rw [List.countP_cons_of_neg p t (by simp [hpa])]
      apply ih v hv (by simpa using hp)
      intro j hj hjne
      have := hothers (j + 1) (by simpa using Nat.succ_lt_succ hj) (by omega)
      simpa using this

lemma stepInvs_out_of_range :
    ∀ (db : Db) (invs : List Invocation) (i : Nat), invs.length ≤ i →
      stepInvs db invs i = (db, invs, .idle) := by
  intro db invs
  induction invs generalizing db with
  | nil => intro i _; cases i <;> rfl
  | cons a t ih =>
    intro i hi
    cases i with
    | zero => simp at hi
    | succ n =>
      have := ih db n (by simpa using hi)
      simp [stepInvs, this]

lemma stepInvs_lt :
    ∀ (db : Db) (invs : List Invocation) (i : Nat) (h : i < invs.length),
      stepInvs db invs i =
        ((stepInv db (invs.get ⟨i, h⟩)).1,
         invs.set i (stepInv db (invs.get ⟨i, h⟩)).2.1,
         (stepInv db (invs.get ⟨i, h⟩)).2.2) := by
  intro db invs
  induction invs generalizing db with
  | nil => intro i h; simp at h
  | cons a t ih =>
    intro i h
    cases i with
    | zero => simp [stepInvs, List.set]
    | succ n =>
      have hn : n < t.length := by simpa using h
      simp [stepInvs, ih db n hn, List.set]

lemma stepInvs_length (db : Db) (invs : List Invocation) (i : Nat) :
    (stepInvs db invs i).2.1.length = invs.length := by
  by_cases h : i < invs.length
  · rw [stepInvs_lt db invs i h]; simp
  · rw [stepInvs_out_of_range db invs i (by omega)]

lemma runSys_length :
    ∀ (tr : List Nat) (db : Db) (invs : List Invocation),
      (runSys db invs tr).2.1.length = invs.length := by
  intro tr
  induction tr with
  | nil => intro db invs; rfl
  | cons i tr ih =>
    intro db invs
    simp only [runSys]
    rw [ih]
    exact stepInvs_length db invs i

lemma claimFilter_sHeld_false {c : RaceCtx} (hOk : c.Ok) {tw t : Time}
    (hwin : t ≤ tw + leaseSeconds) :
    claimFilter c.sid t (sHeld c tw) = false := by
  obtain ⟨hid, hact, _, _, _⟩ := hOk
  simp only [leaseSeconds] at hwin
  simp [claimFilter, sHeld, hid, hact, leaseSeconds]
  linarith

lemma claim_on_held {c : RaceCtx} (hOk : c.Ok) {tw t : Time}
    (hwin : t ≤ tw + leaseSeconds) :
    findOneAndUpdateClaim (c.pre ++ sHeld c tw :: c.post) c.sid t =
      (none, c.pre ++ sHeld c tw :: c.post) := by
  apply findOneAndUpdateClaim_none
  intro x hx
  rcases List.mem_append.mp hx with h | h
  · exact claimFilter_of_id_ne (hOk.2.2.2.1 x h)
  · rcases List.mem_cons.mp h with h1 | h2
    · subst h1; exact claimFilter_sHeld_false hOk hwin
    · exact claimFilter_of_id_ne (hOk.2.2.2.2 x h2)

lemma claim_on_init {c : RaceCtx} (hOk : c.Ok) (t : Time) :
    findOneAndUpdateClaim (c.pre ++ c.s :: c.post) c.sid t =
      (some c.s, c.pre ++ sHeld c t :: c.post) := by
  have hf : claimFilter c.sid t c.s = true := by
    obtain ⟨hid, hact, hexec, _, _⟩ := hOk
    simp [claimFilter, hid, hact, hexec]
  rw [@findOneAndUpdateClaim_unique c.pre c.post c.s c.sid t
    hOk.2.2.2.1 hOk.1 hOk.2.2.2.2, hf]
  rfl

lemma invStatics_set {c : RaceCtx} {invs : List Invocation}
    (h : invStatics c invs) (i : Nat) (hi : i < invs.length) (x : Invocation)
    (hsid : x.sid = (invs.get ⟨i, hi⟩).sid)
    (hnow : x.now = (invs.get ⟨i, hi⟩).now) :
    invStatics c (invs.set i x) := by
  have hxm : invs.get ⟨i, hi⟩ ∈ invs := invs.get_mem i hi
  intro inv hm
  constructor
  · rcases List.mem_or_eq_of_mem_set hm with hmem | heq
    · exact (h inv hmem).1
    · subst heq; rw [hsid]; exact (h _ hxm).1
  · intro inv2 hm2
    rcases List.mem_or_eq_of_mem_set hm with hmem | heq <;>
      rcases List.mem_or_eq_of_mem_set hm2 with hmem2 | heq2
    · exact (h inv hmem).2 inv2 hmem2
    · subst heq2; rw [hnow]; exact (h inv hmem).2 _ hxm
    · subst heq; rw [hnow]; exact (h _ hxm).2 inv2 hmem2
    · subst heq; subst heq2
      simp only [leaseSeconds]
      linarith

lemma stepInv_ready_event (db : Db) (inv : Invocation)
    (h : inv.phase = .ready) : isClaimEv (stepInv db inv).2.2 = true := by
  unfold stepInv
  rw [h]
  rcases hcl : findOneAndUpdateClaim db.schedules inv.sid inv.now with ⟨d, l⟩
  rcases d with _ | d <;> simp [isClaimEv]

end WASched

namespace WASched

/-- Once every invocation is ready-or-finished and the trace emits no
further claim events, running any trace changes nothing: finished
invocations are no-ops, and a ready invocation stepping would emit a claim
event. -/
lemma runSys_frozen :
    ∀ (tr : List Nat) (db : Db) (invs : List Invocation),
      (∀ inv ∈ invs, inv.phase = Phase.ready ∨ ∃ b, inv.phase = Phase.finished b) →
      (runSys db invs tr).2.2.all (fun e => !isClaimEv e) = true →
      (runSys db invs tr).1 = db ∧ (runSys db invs tr).2.1 = invs := by
  intro tr
  induction tr with
  | nil => intro db invs _ _; exact ⟨rfl, rfl⟩
  | cons i tr ih =>
    intro db invs hph hall
    by_cases hlt : i < invs.length
    · rcases hph (invs.get ⟨i, hlt⟩) (invs.get_mem i hlt) with hready | ⟨b, hfin⟩
      · exfalso
        have hev := stepInv_ready_event db (invs.get ⟨i, hlt⟩) hready
        have hunf : (runSys db invs (i :: tr)).2.2 =
            (stepInvs db invs i).2.2 ::
              (runSys (stepInvs db invs i).1 (stepInvs db invs i).2.1 tr).2.2 := by
          simp only [runSys]
        rw [hunf, stepInvs_lt db invs i hlt] at hall
        simp at hall
        simp only [List.get_eq_getElem] at hev
        rw [hall.1] at hev
        simp at hev
      · have hfroze : stepInv db (invs.get ⟨i, hlt⟩) =
            (db, invs.get ⟨i, hlt⟩, .idle) := by
          unfold stepInv
          rw [hfin]
        have hstep : stepInvs db invs i = (db, invs, .idle) := by
          rw [stepInvs_lt db invs i hlt, hfroze, set_get_self]
        have h1 : runSys db invs (i :: tr) =
            ((runSys db invs tr).1, (runSys db invs tr).2.1,
              EventKind.idle :: (runSys db invs tr).2.2) := by
          simp only [runSys]
          rw [hstep]
        rw [h1] at hall ⊢
        rw [List.all_cons] at hall
        exact ih db invs hph ((Bool.and_eq_true _ _).mp hall).2
    · have hstep : stepInvs db invs i = (db, invs, .idle) :=
        stepInvs_out_of_range db invs i (by omega)
      have h1 : runSys db invs (i :: tr) =
          ((runSys db invs tr).1, (runSys db invs tr).2.1,
            EventKind.idle :: (runSys db invs tr).2.2) := by
        simp only [runSys]
        rw [hstep]
      rw [h1] at hall ⊢
      rw [List.all_cons] at hall
      exact ih db invs hph ((Bool.and_eq_true _ _).mp hall).2

end WASched

namespace WASched

lemma get_set_same {invs : List Invocation} {i : Nat} (hi : i < invs.length)
    (x : Invocation) :
    (invs.set i x).get ⟨i, by simpa using hi⟩ = x := by
  simp

lemma get_set_other {invs : List Invocation} {i j : Nat} (hne : i ≠ j)
    (hj : j < invs.length) (x : Invocation) :
    (invs.set i x).get ⟨j, by simpa using hj⟩ = invs.get ⟨j, hj⟩ := by
  simp [List.getElem_set_of_ne hne]

lemma noClaimAfterRelease_cons_ne {e : EventKind} {evs : List EventKind}
    (h : (e == EventKind.updateStep) = false) :
    noClaimAfterRelease (e :: evs) = noClaimAfterRelease evs := by
  simp [noClaimAfterRelease, h]

lemma noClaimAfterRelease_cons_update {evs : List EventKind}
    (h : noClaimAfterRelease (EventKind.updateStep :: evs) = true) :
    evs.all (fun x => !isClaimEv x) = true ∧ noClaimAfterRelease evs = true := by
  have h2 : (evs.all (fun x => !isClaimEv x) && noClaimAfterRelease evs) = true := h
  exact (Bool.and_eq_true _ _).mp h2

lemma runSys_cons (db : Db) (invs : List Invocation) (i : Nat) (tr : List Nat) :
    runSys db invs (i :: tr) =
      ((runSys (stepInvs db invs i).1 (stepInvs db invs i).2.1 tr).1,
       (runSys (stepInvs db invs i).1 (stepInvs db invs i).2.1 tr).2.1,
       (stepInvs db invs i).2.2 ::
         (runSys (stepInvs db invs i).1 (stepInvs db invs i).2.1 tr).2.2) := by
  simp only [runSys]

end WASched

namespace WASched

/-- The race invariant is preserved by every admissible trace: starting from
a fresh claimable schedule with every invocation ready, as long as no claim
is attempted after the winner's release, the system is always either still
busy (at most one invocation past the claim, store as held) or done (the
winner finished, everyone else ready or lost). -/
lemma race_run (c : RaceCtx) (hOk : c.Ok) :
    ∀ (tr : List Nat) (db : Db) (invs : List Invocation),
      invStatics c invs →
      RaceBusy c db invs →
      noClaimAfterRelease (runSys db invs tr).2.2 = true →
      (RaceBusy c (runSys db invs tr).1 (runSys db invs tr).2.1 ∨
        RaceDone c (runSys db invs tr).1 (runSys db invs tr).2.1) ∧
      invStatics c (runSys db invs tr).2.1 := by
  intro tr
  induction tr with
  | nil =>
    intro db invs hstat hb _
    exact ⟨Or.inl hb, hstat⟩
  | cons i tr ih =>
    intro db invs hstat hb hnc
    by_cases hlt : i < invs.length
    case neg =>
      have hstep : stepInvs db invs i = (db, invs, .idle) :=
        stepInvs_out_of_range db invs i (by omega)
      rw [runSys_cons, hstep] at hnc ⊢
      rw [noClaimAfterRelease_cons_ne (by rfl)] at hnc
      exact ih db invs hstat hb hnc
    case pos =>
      have hmem_i : invs.get ⟨i, hlt⟩ ∈ invs := invs.get_mem i hlt
      have hsid_i : (invs.get ⟨i, hlt⟩).sid = c.sid := (hstat _ hmem_i).1
      have hlen2 : i < (invs.set i (invs.get ⟨i, hlt⟩)).length := by simpa using hlt
      cases hb with
      | start invs hready =>
        have hready_i : (invs.get ⟨i, hlt⟩).phase = Phase.ready :=
          hready _ hmem_i
        have hstepInv : stepInv (storeInit c) (invs.get ⟨i, hlt⟩) =
            (storeHeld c (invs.get ⟨i, hlt⟩).now false (invs.get ⟨i, hlt⟩).result,
             { invs.get ⟨i, hlt⟩ with phase := Phase.claimed c.s }, .claimOk) := by
          unfold stepInv
          rw [hready_i]
          simp only [storeInit]
          rw [hsid_i, claim_on_init hOk]
          simp [storeHeld]
        have hstep : stepInvs (storeInit c) invs i =
            (storeHeld c (invs.get ⟨i, hlt⟩).now false (invs.get ⟨i, hlt⟩).result,
             invs.set i { invs.get ⟨i, hlt⟩ with phase := Phase.claimed c.s },
             .claimOk) := by
          rw [stepInvs_lt _ invs i hlt, hstepInv]
        rw [runSys_cons, hstep] at hnc ⊢
        rw [noClaimAfterRelease_cons_ne (by rfl)] at hnc
        have hstat2 : invStatics c
            (invs.set i { invs.get ⟨i, hlt⟩ with phase := Phase.claimed c.s }) :=
          invStatics_set hstat i hlt _ rfl rfl
        have hw2 : i < (invs.set i
            { invs.get ⟨i, hlt⟩ with phase := Phase.claimed c.s }).length := by
          simpa using hlt
        have hbusy2 := @RaceBusy.held c
          (invs.set i { invs.get ⟨i, hlt⟩ with phase := Phase.claimed c.s })
          ⟨i, hw2⟩ false
          (Or.inl ⟨rfl, Or.inl (by simp)⟩)
          (by
            intro j hj
            have hjlt : (j : Nat) < invs.length := by simpa using j.2
            have hget : (invs.set i
                { invs.get ⟨i, hlt⟩ with phase := Phase.claimed c.s }).get j =
                invs.get ⟨j, hjlt⟩ := by
              simp [List.get_eq_getElem,
                List.getElem_set_of_ne (fun h => hj (by simpa using h.symm))]
            rw [readyOrLost, hget]
            exact Or.inl (hready _ (invs.get_mem _ hjlt)))
        have hget2 : (invs.set i
            { invs.get ⟨i, hlt⟩ with phase := Phase.claimed c.s }).get
              ⟨i, hw2⟩ =
            { invs.get ⟨i, hlt⟩ with phase := Phase.claimed c.s } := by
          simp
        rw [hget2] at hbusy2
        exact ih _ _ hstat2 hbusy2 hnc
      | held invs w flag hph hothers =>
        have hmem_w : invs.get w ∈ invs := invs.get_mem w.1 w.2
        have hsid_w : (invs.get w).sid = c.sid := (hstat _ hmem_w).1
        by_cases hiw : i = (w : Nat)
        case pos =>
          have hfin_eq : (⟨i, hlt⟩ : Fin invs.length) = w := Fin.ext hiw
          rcases hph with ⟨hfl, hcl | hsent⟩ | ⟨hfl, hlog⟩
          · -- holder has claimed, performs its (store-silent) gateway send
            subst hfl
            have hstepInv : stepInv
                (storeHeld c (invs.get w).now false (invs.get w).result)
                (invs.get w) =
                (storeHeld c (invs.get w).now false (invs.get w).result,
                 { invs.get w with phase := Phase.sentMsg c.s }, .sendStep) := by
              unfold stepInv
              rw [hcl]
            have hstep : stepInvs
                (storeHeld c (invs.get w).now false (invs.get w).result) invs i =
                (storeHeld c (invs.get w).now false (invs.get w).result,
                 invs.set i { invs.get w with phase := Phase.sentMsg c.s },
                 .sendStep) := by
              rw [stepInvs_lt _ invs i hlt, hfin_eq, hstepInv]
            rw [runSys_cons, hstep] at hnc ⊢
            rw [noClaimAfterRelease_cons_ne (by rfl)] at hnc
            have hstat2 : invStatics c
                (invs.set i { invs.get w with phase := Phase.sentMsg c.s }) :=
              invStatics_set hstat i hlt _ (by rw [hfin_eq]) (by rw [hfin_eq])
            have hw2 : i < (invs.set i
                { invs.get w with phase := Phase.sentMsg c.s }).length := by
              simpa using hlt
            have hbusy2 := @RaceBusy.held c
              (invs.set i { invs.get w with phase := Phase.sentMsg c.s })
              ⟨i, hw2⟩ false
              (Or.inl ⟨rfl, Or.inr (by simp)⟩)
              (by
                intro j hj
                have hjlt : (j : Nat) < invs.length := by simpa using j.2
                have hget : (invs.set i
                    { invs.get w with phase := Phase.sentMsg c.s }).get j =
                    invs.get ⟨j, hjlt⟩ := by
                  simp [List.get_eq_getElem,
                    List.getElem_set_of_ne (fun h => hj (by simpa using h.symm))]
                rw [readyOrLost, hget]
                exact hothers ⟨j, hjlt⟩ (by simpa [hiw] using hj))
            have hget2 : (invs.set i
                { invs.get w with phase := Phase.sentMsg c.s }).get ⟨i, hw2⟩ =
                { invs.get w with phase := Phase.sentMsg c.s } := by
              simp
            rw [hget2] at hbusy2
            exact ih _ _ hstat2 hbusy2 hnc
          · -- holder has sent, inserts its single log entry
            subst hfl
            have hstepInv : stepInv
                (storeHeld c (invs.get w).now false (invs.get w).result)
                (invs.get w) =
                (storeHeld c (invs.get w).now true (invs.get w).result,
                 { invs.get w with phase := Phase.logged c.s }, .logStep) := by
              unfold stepInv
              rw [hsent]
              have hsid_w2 := hsid_w
              simp only [List.get_eq_getElem] at hsid_w2
              simp [storeHeld, hsid_w2]
            have hstep : stepInvs
                (storeHeld c (invs.get w).now false (invs.get w).result) invs i =
                (storeHeld c (invs.get w).now true (invs.get w).result,
                 invs.set i { invs.get w with phase := Phase.logged c.s },
                 .logStep) := by
              rw [stepInvs_lt _ invs i hlt, hfin_eq, hstepInv]
            rw [runSys_cons, hstep] at hnc ⊢
            rw [noClaimAfterRelease_cons_ne (by rfl)] at hnc
            have hstat2 : invStatics c
                (invs.set i { invs.get w with phase := Phase.logged c.s }) :=
              invStatics_set hstat i hlt _ (by rw [hfin_eq]) (by rw [hfin_eq])
            have hw2 : i < (invs.set i
                { invs.get w with phase := Phase.logged c.s }).length := by
              simpa using hlt
            have hbusy2 := @RaceBusy.held c
              (invs.set i { invs.get w with phase := Phase.logged c.s })
              ⟨i, hw2⟩ true
              (Or.inr ⟨rfl, by simp⟩)
              (by
                intro j hj
                have hjlt : (j : Nat) < invs.length := by simpa using j.2
                have hget : (invs.set i
                    { invs.get w with phase := Phase.logged c.s }).get j =
                    invs.get ⟨j, hjlt⟩ := by
                  simp [List.get_eq_getElem,
                    List.getElem_set_of_ne (fun h => hj (by simpa using h.symm))]
                rw [readyOrLost, hget]
                exact hothers ⟨j, hjlt⟩ (by simpa [hiw] using hj))
            have hget2 : (invs.set i
                { invs.get w with phase := Phase.logged c.s }).get ⟨i, hw2⟩ =
                { invs.get w with phase := Phase.logged c.s } := by
              simp
            rw [hget2] at hbusy2
            exact ih _ _ hstat2 hbusy2 hnc
          · -- holder has logged, updates the schedule and releases the lease
            subst hfl
            have hstepInv : stepInv
                (storeHeld c (invs.get w).now true (invs.get w).result)
                (invs.get w) =
                (storeDone c (invs.get w).now (invs.get w).result,
                 { invs.get w with phase := Phase.finished true },
                 .updateStep) := by
              unfold stepInv
              rw [hlog]
              simp only [storeHeld]
              rw [hsid_w,
                @updateOneById_unique c.pre c.post (sHeld c (invs.get w).now)
                  c.sid (releaseUpdate c.s.schedule_type (invs.get w).now)
                  hOk.2.2.2.1 hOk.1]
              simp [storeDone, sHeld]
            have hstep : stepInvs
                (storeHeld c (invs.get w).now true (invs.get w).result) invs i =
                (storeDone c (invs.get w).now (invs.get w).result,
                 invs.set i { invs.get w with phase := Phase.finished true },
                 .updateStep) := by
              rw [stepInvs_lt _ invs i hlt, hfin_eq, hstepInv]
            rw [runSys_cons, hstep] at hnc ⊢
            obtain ⟨hall, hnc2⟩ := noClaimAfterRelease_cons_update hnc
            have hstat2 : invStatics c
                (invs.set i { invs.get w with phase := Phase.finished true }) :=
              invStatics_set hstat i hlt _ (by rw [hfin_eq]) (by rw [hfin_eq])
            have hphases : ∀ inv ∈ invs.set i
                { invs.get w with phase := Phase.finished true },
                inv.phase = Phase.ready ∨ ∃ b, inv.phase = Phase.finished b := by
              intro inv hm
              obtain ⟨n, hn⟩ := List.mem_iff_get.mp hm
              by_cases hni : (n : Nat) = i
              · right
                refine ⟨true, ?_⟩
                rw [← hn]
                have : (invs.set i
                    { invs.get w with phase := Phase.finished true }).get n =
                    { invs.get w with phase := Phase.finished true } := by
                  rcases n with ⟨nv, hnv⟩
                  have hni2 : nv = i := by simpa using hni
                  subst hni2
                  simp
                rw [this]
              · have hjlt : (n : Nat) < invs.length := by simpa using n.2
                have hget : (invs.set i
                    { invs.get w with phase := Phase.finished true }).get n =
                    invs.get ⟨n, hjlt⟩ := by
                  simp [List.get_eq_getElem,
                    List.getElem_set_of_ne (fun h => hni h.symm)]
                rw [← hn, hget]
                rcases hothers ⟨n, hjlt⟩ (by simpa [hiw] using hni) with h1 | h1
                · exact Or.inl h1
                · exact Or.inr ⟨false, h1⟩
            have hfro := runSys_frozen tr
              (storeDone c (invs.get w).now (invs.get w).result)
              (invs.set i { invs.get w with phase := Phase.finished true })
              hphases hall
            rw [hfro.1, hfro.2]
            refine ⟨Or.inr ?_, hstat2⟩
            have hw2 : i < (invs.set i
                { invs.get w with phase := Phase.finished true }).length := by
              simpa using hlt
            refine ⟨⟨i, hw2⟩, by simp, ?_, by simp⟩
            intro j hj
            have hjlt : (j : Nat) < invs.length := by simpa using j.2
            have hget : (invs.set i
                { invs.get w with phase := Phase.finished true }).get j =
                invs.get ⟨j, hjlt⟩ := by
              simp [List.get_eq_getElem,
                List.getElem_set_of_ne (fun h => hj (by simpa using h.symm))]
            rw [readyOrLost, hget]
            exact hothers ⟨j, hjlt⟩ (by simpa [hiw] using hj)
        case neg =>
          rcases hothers ⟨i, hlt⟩ hiw with hready_i | hlost_i
          · -- a concurrent loser attempts the claim while the lease is held
            have hwin : (invs.get ⟨i, hlt⟩).now ≤
                (invs.get w).now + leaseSeconds :=
              (hstat _ hmem_i).2 _ hmem_w
            have hstepInv : stepInv
                (storeHeld c (invs.get w).now flag (invs.get w).result)
                (invs.get ⟨i, hlt⟩) =
                (storeHeld c (invs.get w).now flag (invs.get w).result,
                 { invs.get ⟨i, hlt⟩ with phase := Phase.finished false },
                 .claimFail) := by
              unfold stepInv
              rw [hready_i]
              simp only [storeHeld]
              rw [hsid_i, claim_on_held hOk hwin]
            have hstep : stepInvs
                (storeHeld c (invs.get w).now flag (invs.get w).result) invs i =
                (storeHeld c (invs.get w).now flag (invs.get w).result,
                 invs.set i
                   { invs.get ⟨i, hlt⟩ with phase := Phase.finished false },
                 .claimFail) := by
              rw [stepInvs_lt _ invs i hlt, hstepInv]
            rw [runSys_cons, hstep] at hnc ⊢
            rw [noClaimAfterRelease_cons_ne (by rfl)] at hnc
            have hstat2 : invStatics c
                (invs.set i
                  { invs.get ⟨i, hlt⟩ with phase := Phase.finished false }) :=
              invStatics_set hstat i hlt _ rfl rfl
            have hwlt : (w : Nat) < (invs.set i
                { invs.get ⟨i, hlt⟩ with phase := Phase.finished false }).length := by
              simp [w.2]
            have hgetw : (invs.set i
                { invs.get ⟨i, hlt⟩ with phase := Phase.finished false }).get
                  ⟨w, hwlt⟩ = invs.get w := by
              rcases w with ⟨wv, hwv⟩
              simp [List.get_eq_getElem, List.getElem_set_of_ne hiw]
            have hbusy2 := @RaceBusy.held c
              (invs.set i
                { invs.get ⟨i, hlt⟩ with phase := Phase.finished false })
              ⟨w, hwlt⟩ flag
              (by rw [hgetw]; exact hph)
              (by
                intro j hj
                have hjlt : (j : Nat) < invs.length := by simpa using j.2
                by_cases hji : (j : Nat) = i
                · have hget : (invs.set i
                      { invs.get ⟨i, hlt⟩ with phase := Phase.finished false }).get j =
                      { invs.get ⟨i, hlt⟩ with phase := Phase.finished false } := by
                    rcases j with ⟨jv, hjv⟩
                    have hji2 : jv = i := by simpa using hji
                    subst hji2
                    simp
                  rw [readyOrLost, hget]
                  exact Or.inr rfl
                · have hget : (invs.set i
                      { invs.get ⟨i, hlt⟩ with phase := Phase.finished false }).get j =
                      invs.get ⟨j, hjlt⟩ := by
                    simp [List.get_eq_getElem,
                      List.getElem_set_of_ne (fun h => hji h.symm)]
                  rw [readyOrLost, hget]
                  exact hothers ⟨j, hjlt⟩ (by simpa using hj))
            rw [hgetw] at hbusy2
            exact ih _ _ hstat2 hbusy2 hnc
          · -- an already-lost invocation steps: no-op
            have hstepInv : stepInv
                (storeHeld c (invs.get w).now flag (invs.get w).result)
                (invs.get ⟨i, hlt⟩) =
                (storeHeld c (invs.get w).now flag (invs.get w).result,
                 invs.get ⟨i, hlt⟩, .idle) := by
              unfold stepInv
              rw [hlost_i]
            have hstep : stepInvs
                (storeHeld c (invs.get w).now flag (invs.get w).result) invs i =
                (storeHeld c (invs.get w).now flag (invs.get w).result,
                 invs, .idle) := by
              rw [stepInvs_lt _ invs i hlt, hstepInv, set_get_self]
            rw [runSys_cons, hstep] at hnc ⊢
            rw [noClaimAfterRelease_cons_ne (by rfl)] at hnc
            exact ih _ _ hstat (RaceBusy.held invs w flag hph hothers) hnc

end WASched

namespace WASched

/-- C1: for every schedule and every batch of N ≥ 1 logically-concurrent
invocations of `execute_scheduled_message` on the same schedule id — all
claim attempts within one 5-minute lease window of each other and none
after the winner's release — and every interleaving of their atomic store
steps: at most one MessageLog entry is produced (the final log is the
initial log, or the initial log plus exactly one entry), exactly one
invocation proceeds past the atomic claim, and every other invocation
finishes without claiming, having performed no send, no log write and no
schedule update. -/
theorem C1_double_send_prevention
    (c : RaceCtx) (invs : List Invocation) (tr : List Nat)
    (hOk : c.Ok) (hstat : invStatics c invs)
    (hready : ∀ inv ∈ invs, inv.phase = Phase.ready)
    (hN : 1 ≤ invs.length)
    (hnc : noClaimAfterRelease (runSys (storeInit c) invs tr).2.2 = true)
    (hdone : ∀ inv ∈ (runSys (storeInit c) invs tr).2.1,
      inv.phase ≠ Phase.ready) :
    (runSys (storeInit c) invs tr).2.1.countP
      (fun inv => pastClaim inv.phase) = 1 ∧
    (runSys (storeInit c) invs tr).2.1.countP
      (fun inv => inv.phase == Phase.finished false) = invs.length - 1 ∧
    ((runSys (storeInit c) invs tr).1.logs = c.logs0 ∨
      ∃ entry, (runSys (storeInit c) invs tr).1.logs = c.logs0 ++ [entry]) := by
  have hrace := race_run c hOk tr (storeInit c) invs hstat
    (RaceBusy.start invs hready) hnc
  have hlen := runSys_length tr (storeInit c) invs
  rcases hrun : runSys (storeInit c) invs tr with ⟨db2, invs2, evs2⟩
  rw [hrun] at hrace hlen hdone
  dsimp only at hrace hlen hdone ⊢
  obtain ⟨hmode, hstat2⟩ := hrace
  have hcounts : ∀ (w : Fin invs2.length),
      pastClaim (invs2.get w).phase = true →
      (∀ j : Fin invs2.length, (j : Nat) ≠ (w : Nat) →
        readyOrLost (invs2.get j)) →
      invs2.countP (fun inv => pastClaim inv.phase) = 1 ∧
      invs2.countP (fun inv => inv.phase == Phase.finished false) =
        invs.length - 1 := by
    intro w hw hothers
    have hlost : ∀ j (hj : j < invs2.length), j ≠ (w : Nat) →
        (invs2.get ⟨j, hj⟩).phase = Phase.finished false := by
      intro j hj hjne
      rcases hothers ⟨j, hj⟩ hjne with h1 | h1
      · exact absurd h1 (hdone _ (invs2.get_mem j hj))
      · exact h1
    constructor
    · apply countP_eq_one_of_index (fun inv => pastClaim inv.phase) invs2
        (w : Nat) w.2
      · have : invs2.get ⟨(w : Nat), w.2⟩ = invs2.get w := by
          rcases w with ⟨wv, hwv⟩; rfl
        rw [this]
        exact hw
      · intro j hj hjne
        rw [hlost j hj hjne]
        rfl
    · have h1 : invs2.countP
          (fun inv => !(inv.phase == Phase.finished false)) = 1 := by
        apply countP_eq_one_of_index _ invs2 (w : Nat) w.2
        · have heq : invs2.get ⟨(w : Nat), w.2⟩ = invs2.get w := by
            rcases w with ⟨wv, hwv⟩; rfl
          rw [heq]
          cases hph : (invs2.get w).phase <;> simp_all [pastClaim]
        · intro j hj hjne
          rw [hlost j hj hjne]
          rfl
      have h2 := List.length_eq_countP_add_countP
        (fun inv => inv.phase == Phase.finished false) invs2
      have h3 : invs2.countP
          (fun inv => decide ¬((inv.phase == Phase.finished false) = true)) =
          invs2.countP (fun inv => !(inv.phase == Phase.finished false)) := by
        apply List.countP_congr
        intro x _
        simp
      omega
  rcases hmode with hbusy | hdone2
  · cases hbusy with
    | start invs2 hready2 =>
      exfalso
      have h0 : 0 < invs2.length := by omega
      exact hdone _ (invs2.get_mem 0 h0) (hready2 _ (invs2.get_mem 0 h0))
    | held invs2 w flag hph hothers =>
      have hw : pastClaim (invs2.get w).phase = true := by
        rcases hph with ⟨_, hcl | hsent⟩ | ⟨_, hlog⟩
        · rw [hcl]; rfl
        · rw [hsent]; rfl
        · rw [hlog]; rfl
      obtain ⟨hc1, hc2⟩ := hcounts w hw hothers
      refine ⟨hc1, hc2, ?_⟩
      cases flag with
      | false => exact Or.inl rfl
      | true =>
        exact Or.inr ⟨mkLog c.s c.sid (invs2.get w).result (invs2.get w).now,
          rfl⟩
  · obtain ⟨w, hwphase, hothers, hdb⟩ := hdone2
    have hw : pastClaim (invs2.get w).phase = true := by
      rw [hwphase]; rfl
    obtain ⟨hc1, hc2⟩ := hcounts w hw hothers
    refine ⟨hc1, hc2, Or.inr ?_⟩
    refine ⟨mkLog c.s c.sid (invs2.get w).result (invs2.get w).now, ?_⟩
    rw [hdb]
    rfl

end WASched

namespace WASched

/-- Witness for `C1_double_send_prevention`: two concurrent invocations,
the first claiming and completing while the second attempts its claim
inside the lease window — exactly one passes the claim, the other finishes
without claiming, and exactly one log entry is appended. -/
theorem C1_double_send_prevention_witness :
    (runSys (storeInit raceC) raceInvs [0, 1, 0, 0, 0]).2.1.countP
      (fun inv => pastClaim inv.phase) = 1 ∧
    (runSys (storeInit raceC) raceInvs [0, 1, 0, 0, 0]).2.1.countP
      (fun inv => inv.phase == Phase.finished false) = raceInvs.length - 1 ∧
    ((runSys (storeInit raceC) raceInvs [0, 1, 0, 0, 0]).1.logs =
        raceC.logs0 ∨
      ∃ entry, (runSys (storeInit raceC) raceInvs [0, 1, 0, 0, 0]).1.logs =
        raceC.logs0 ++ [entry]) :=
  C1_double_send_prevention raceC raceInvs [0, 1, 0, 0, 0]
    ⟨rfl, rfl, rfl, by simp [raceC], by simp [raceC]⟩
    (by
      intro inv hm
      simp only [raceInvs, List.mem_cons, List.not_mem_nil, or_false] at hm
      rcases hm with rfl | rfl <;> refine ⟨rfl, ?_⟩ <;> intro inv2 hm2 <;>
        simp only [raceInvs, List.mem_cons, List.not_mem_nil, or_false] at hm2 <;>
          rcases hm2 with rfl | rfl <;> decide)
    (by decide) (by decide) (by decide) (by decide)

end WASched
